import Mathlib

/-!
Shallow embedding of the wasm debug-instrumentation subsystem
(`js/src/wasm/WasmDebug.cpp`): the generated source-map index
(`GeneratedSourceMap::searchLineByOffset`), the `DebugState` operations
(`createText`, `ensureSourceMap`, `getLineOffsets`, `getOffsetLocation`,
`incrementStepModeCount`, `decrementStepModeCount`,
`hasBreakpointTrapAtOffset`, `toggleBreakpointTrap`, `toggleDebugTrap`,
`adjustEnterAndLeaveFrameTrapsState`).

Modelling conventions:
* `uint32_t` values are `Nat` with explicit `% 2^32` wherever the C++
  arithmetic can wrap (subtraction in the far-jump scan, the step-mode and
  enter/leave-frame counters).
* `MOZ_ASSERT` failures are modelled as `Option.none` results: an operation
  returns `none` exactly when one of its assertions (or an out-of-bounds
  table access) would fire, and `some` of the resulting state otherwise.
* The JIT code segment is abstracted to the per-offset patch state
  `Nat → Option Nat`: `none` models the original no-op at an offset and
  `some fj` models a patched call whose target is the far-jump trampoline
  at offset `fj` (`MacroAssembler::patchNopToCall` / `patchCallToNop`).
* Hash maps/sets (`stepModeCounters_`, `breakpointSites_`) are association
  lists / lists of keys; `init()` never fails (allocation is not modelled),
  so "uninitialized" and "empty" coincide.
* `BinaryToText` is not part of the sources; it is an abstract parameter
  `render` producing the optional text, the `ExprLoc` vector and the total
  line count.
-/

namespace WasmDebug

/-- The modulus of the `uint32_t` machine integers used by the code
(`2 ^ 32`, written as a literal). -/
def U32 : Nat := 4294967296

/-- `uint32_t` subtraction `a - b` (wraps modulo `2^32`). -/
def sub32 (a b : Nat) : Nat := (a + U32 - b % U32) % U32

/-- `CallSiteDesc::Kind` (only the kinds this file distinguishes matter). -/
inductive CallSiteKind where
  | func
  | dynamic
  | symbolic
  | enterFrame
  | leaveFrame
  | breakpoint
deriving DecidableEq, Repr

/-- `wasm::CallSite`: kind, return-address offset, bytecode position. -/
structure CallSite where
  kind : CallSiteKind
  returnAddressOffset : Nat
  lineOrBytecode : Nat
deriving DecidableEq, Repr

/-- `wasm::CodeRange` (the fields used by WasmDebug.cpp). -/
structure CodeRange where
  begin_ : Nat
  end_ : Nat
  funcIndex : Nat
  isFunction : Bool
deriving DecidableEq, Repr

/-- The immutable `wasm::Metadata` fields consumed by `DebugState`. -/
structure Metadata where
  debugEnabled : Bool
  callSites : List CallSite
  codeRanges : List CodeRange
  debugFuncToCodeRange : List Nat
  debugTrapFarJumpOffsets : List Nat
deriving DecidableEq, Repr

/-- `wasm::ExprLoc`: one expression's generated-code offset and rendered
source position. -/
structure ExprLoc where
  offset : Nat
  lineno : Nat
  column : Nat
deriving DecidableEq, Repr, Inhabited

/-- `wasm::GeneratedSourceMap`: the `ExprLoc` vector, the lazily built
offset-sorted permutation and the total line count. -/
structure GeneratedSourceMap where
  exprlocs : List ExprLoc
  sortedByOffsetExprLocIndices : Option (List Nat)
  totalLines : Nat
deriving DecidableEq, Repr

/-- `wasm::DebugState` together with the patchable JIT code segment it
mutates.  `traps o = some fj` means the call site at code offset `o` is
patched to call the far-jump trampoline at offset `fj`; `none` means the
original no-op is in place. -/
structure DebugState where
  metadata : Metadata
  maybeBytecode : Option (List Nat)
  maybeSourceMap : Option GeneratedSourceMap
  breakpointSites : List Nat
  stepModeCounters : List (Nat × Nat)
  enterAndLeaveFrameTrapsCounter : Nat
  traps : Nat → Option Nat

/-- `stepModeCounters_.lookup` on the association-list model. -/
def smLookup (m : List (Nat × Nat)) (k : Nat) : Option Nat :=
  (m.find? (fun e => e.1 = k)).map (fun e => e.2)

/-- `p->value()++` on the association-list model (uint32 wrap). -/
def smBump (m : List (Nat × Nat)) (k : Nat) : List (Nat × Nat) :=
  m.map (fun e => if e.1 = k then (e.1, (e.2 + 1) % U32) else e)

/-- Store `v` for key `k` (used for `--p->value()` leaving a nonzero count). -/
def smSet (m : List (Nat × Nat)) (k v : Nat) : List (Nat × Nat) :=
  m.map (fun e => if e.1 = k then (e.1, v) else e)

/-- `stepModeCounters_.remove(p)` on the association-list model. -/
def smRemove (m : List (Nat × Nat)) (k : Nat) : List (Nat × Nat) :=
  m.filter (fun e => e.1 ≠ k)

/-- The far-jump entry index chosen by `DebugState::toggleDebugTrap` when
enabling: the `while (i < length && offset < farJumpOffsets[i]) i++;` scan
followed by the conditional decrement.  The subtractions are `uint32_t`. -/
def debugTrapFarJumpIndex (farJumpOffsets : List Nat) (offset : Nat) : Nat :=
  let len := farJumpOffsets.length
  let i := (farJumpOffsets.takeWhile (fun x => offset < x)).length
  if len ≤ i ∨
      (0 < i ∧ sub32 offset (farJumpOffsets.getD (i - 1) 0)
        < sub32 (farJumpOffsets.getD i 0) offset) then
    i - 1
  else
    i

/-- `DebugState::toggleDebugTrap(offset, enabled)`.  Fails (assertion) when
`offset` is zero, or when enabling with an empty far-jump table. -/
def toggleDebugTrap (farJumpOffsets : List Nat) (traps : Nat → Option Nat)
    (offset : Nat) (enabled : Bool) : Option (Nat → Option Nat) :=
  if offset = 0 then
    none
  else if enabled then
    if farJumpOffsets.isEmpty then
      none
    else
      let i := debugTrapFarJumpIndex farJumpOffsets offset
      let farJump := farJumpOffsets.getD i 0
      some (fun o => if o = offset then some farJump else traps o)
  else
    some (fun o => if o = offset then none else traps o)

/-- `SlowCallSiteSearchByOffset`: first call site whose `lineOrBytecode`
equals `offset` and whose kind is `Breakpoint`. -/
def slowCallSiteSearchByOffset (md : Metadata) (offset : Nat) : Option CallSite :=
  md.callSites.find?
    (fun cs => decide (cs.lineOrBytecode = offset ∧ cs.kind = CallSiteKind.breakpoint))

/-- `DebugState::hasBreakpointTrapAtOffset`. -/
def hasBreakpointTrapAtOffset (st : DebugState) (offset : Nat) : Bool :=
  st.metadata.debugEnabled && (slowCallSiteSearchByOffset st.metadata offset).isSome

/-- `Code::lookupRange(base + offset)`: the code range containing `offset`. -/
def lookupRange (ranges : List CodeRange) (offset : Nat) : Option CodeRange :=
  ranges.find? (fun r => decide (r.begin_ ≤ offset ∧ offset < r.end_))

/-- The code range for a function index
(`metadata_->codeRanges[metadata_->debugFuncToCodeRange[funcIndex]]`);
`none` models an out-of-bounds table access. -/
def getFuncCodeRange (md : Metadata) (funcIndex : Nat) : Option CodeRange :=
  (md.debugFuncToCodeRange.get? funcIndex).bind (fun i => md.codeRanges.get? i)

/-- `DebugState::toggleBreakpointTrap(rt, offset, enabled)`.  Searches the
call-site table by bytecode offset; a missing call site is an early
`return` (state unchanged); when the containing function is in step mode
the patch is skipped; otherwise the trap at the call site's return-address
offset is toggled. -/
def toggleBreakpointTrap (st : DebugState) (offset : Nat) (enabled : Bool) :
    Option DebugState :=
  if st.metadata.debugEnabled = false then
    none
  else
    match slowCallSiteSearchByOffset st.metadata offset with
    | none => some st
    | some callSite =>
      let debugTrapOffset := callSite.returnAddressOffset
      match lookupRange st.metadata.codeRanges debugTrapOffset with
      | none => none
      | some codeRange =>
        if codeRange.isFunction = false then
          none
        else if (smLookup st.stepModeCounters codeRange.funcIndex).isSome then
          some st
        else
          (toggleDebugTrap st.metadata.debugTrapFarJumpOffsets st.traps
              debugTrapOffset enabled).map
            (fun t => { st with traps := t })

/-- The common patch loop over `metadata_->callSites`: every call site
satisfying `pred` has its trap toggled to `enabledOf` of its return-address
offset.  Instantiated by `incrementStepModeCount` (breakpoint sites in
range, constantly enabled), `decrementStepModeCount` (breakpoint sites in
range, re-derived from `breakpointSites_`) and
`adjustEnterAndLeaveFrameTrapsState` (enter/leave-frame sites). -/
def toggleCallSitesTraps (farJumpOffsets : List Nat) (sites : List CallSite)
    (pred : CallSite → Bool) (enabledOf : Nat → Bool)
    (traps : Nat → Option Nat) : Option (Nat → Option Nat) :=
  match sites with
  | [] => some traps
  | cs :: rest =>
    if pred cs then
      match toggleDebugTrap farJumpOffsets traps cs.returnAddressOffset
          (enabledOf cs.returnAddressOffset) with
      | none => none
      | some t => toggleCallSitesTraps farJumpOffsets rest pred enabledOf t
    else
      toggleCallSitesTraps farJumpOffsets rest pred enabledOf traps

/-- The loop filter of `incrementStepModeCount`/`decrementStepModeCount`:
breakpoint-kind call sites whose return-address offset lies in
`[codeRange.begin(), codeRange.end()]` (both bounds inclusive, as in the
source). -/
def inRangeBreakpoint (codeRange : CodeRange) (cs : CallSite) : Bool :=
  decide (cs.kind = CallSiteKind.breakpoint ∧
    codeRange.begin_ ≤ cs.returnAddressOffset ∧
    cs.returnAddressOffset ≤ codeRange.end_)

/-- `DebugState::incrementStepModeCount(cx, funcIndex)` (allocation failures
are not modelled, so the result is `none` only on assertion failure). -/
def incrementStepModeCount (st : DebugState) (funcIndex : Nat) :
    Option DebugState :=
  if st.metadata.debugEnabled = false then
    none
  else
    match getFuncCodeRange st.metadata funcIndex with
    | none => none
    | some codeRange =>
      if codeRange.isFunction = false then
        none
      else
        match smLookup st.stepModeCounters funcIndex with
        | some v =>
          if v = 0 then none
          else some { st with stepModeCounters := smBump st.stepModeCounters funcIndex }
        | none =>
          let counters := (funcIndex, 1) :: st.stepModeCounters
          (toggleCallSitesTraps st.metadata.debugTrapFarJumpOffsets
              st.metadata.callSites (inRangeBreakpoint codeRange)
              (fun _ => true) st.traps).map
            (fun t => { st with stepModeCounters := counters, traps := t })

/-- `DebugState::decrementStepModeCount(cx, funcIndex)`.  On the counter
reaching zero the entry is removed and each in-range breakpoint call site's
trap is re-derived as enabled iff `breakpointSites_` contains its
return-address offset. -/
def decrementStepModeCount (st : DebugState) (funcIndex : Nat) :
    Option DebugState :=
  if st.metadata.debugEnabled = false then
    none
  else
    match getFuncCodeRange st.metadata funcIndex with
    | none => none
    | some codeRange =>
      if codeRange.isFunction = false then
        none
      else if st.stepModeCounters.isEmpty then
        none
      else
        match smLookup st.stepModeCounters funcIndex with
        | none => none
        | some v =>
          let v' := sub32 v 1
          if v' ≠ 0 then
            some { st with stepModeCounters := smSet st.stepModeCounters funcIndex v' }
          else
            (toggleCallSitesTraps st.metadata.debugTrapFarJumpOffsets
                st.metadata.callSites (inRangeBreakpoint codeRange)
                (fun o => st.breakpointSites.contains o) st.traps).map
              (fun t =>
                { st with stepModeCounters := smRemove st.stepModeCounters funcIndex,
                          traps := t })

/-- The loop filter of `adjustEnterAndLeaveFrameTrapsState`: enter-frame and
leave-frame call sites (no code-range restriction). -/
def isEnterOrLeaveFrame (cs : CallSite) : Bool :=
  decide (cs.kind = CallSiteKind.enterFrame ∨ cs.kind = CallSiteKind.leaveFrame)

/-- `DebugState::adjustEnterAndLeaveFrameTrapsState(cx, enabled)`: the
enter/leave-frame trap counter is adjusted (uint32); machine code is
patched only when the counter crosses between zero and nonzero. -/
def adjustEnterAndLeaveFrameTrapsState (st : DebugState) (enabled : Bool) :
    Option DebugState :=
  if st.metadata.debugEnabled = false then
    none
  else if enabled = false ∧ st.enterAndLeaveFrameTrapsCounter = 0 then
    none
  else
    let wasEnabled : Bool := decide (0 < st.enterAndLeaveFrameTrapsCounter)
    let c' := if enabled then (st.enterAndLeaveFrameTrapsCounter + 1) % U32
              else sub32 st.enterAndLeaveFrameTrapsCounter 1
    let stillEnabled : Bool := decide (0 < c')
    if wasEnabled = stillEnabled then
      some { st with enterAndLeaveFrameTrapsCounter := c' }
    else
      (toggleCallSitesTraps st.metadata.debugTrapFarJumpOffsets
          st.metadata.callSites isEnterOrLeaveFrame
          (fun _ => stillEnabled) st.traps).map
        (fun t => { st with enterAndLeaveFrameTrapsCounter := c', traps := t })

/-- `DebugState::getOrCreateBreakpointSite` restricted to the registry keys
(the site object graph is owned by the debugger and not modelled). -/
def getOrCreateBreakpointSite (st : DebugState) (offset : Nat) : DebugState :=
  if st.breakpointSites.contains offset then st
  else { st with breakpointSites := offset :: st.breakpointSites }

/-- `DebugState::destroyBreakpointSite` (asserts the site exists). -/
def destroyBreakpointSite (st : DebugState) (offset : Nat) : Option DebugState :=
  if st.breakpointSites.contains offset then
    some { st with breakpointSites := st.breakpointSites.filter (fun o => o ≠ offset) }
  else
    none

/-- The fixed message rendered when no bytecode was retained. -/
def enabledMessage : String :=
  "Restart with developer tools open to view WebAssembly source"

/-- The fixed message rendered when the bytecode exceeds the size ceiling. -/
def tooBigMessage : String :=
  "Unfortunately, this WebAssembly module is too big to view as text.\nWe are working hard to remove this limitation."

/-- `static const unsigned TooBig = 1000000;` -/
def TooBig : Nat := 1000000

/-- The `DEBUG`-only check in `createText` that expression locations come out
sorted by line number, as a running fold from `lastLineno = 0`. -/
def linenoMonotone : Nat → List ExprLoc → Bool
  | _, [] => true
  | last, loc :: rest => decide (last ≤ loc.lineno) && linenoMonotone loc.lineno rest

/-- The whole-vector form of the `createText` line-number check. -/
def linenoSorted (locs : List ExprLoc) : Bool :=
  linenoMonotone 0 locs

/-- A text renderer (`BinaryToText` with its `GeneratedSourceMap` side
channel): optional rendered text (`none` models a decode/allocation
failure after the map object was already assigned), the captured `ExprLoc`
vector and the total line count. -/
def Render : Type := List Nat → Option String × List ExprLoc × Nat

/-- `DebugState::createText(cx)`: returns the produced string (`none` for a
C++ `nullptr` result) and the updated state.  The outer `Option` is
assertion failure. -/
def createText (render : Render) (st : DebugState) :
    Option (Option String × DebugState) :=
  match st.maybeBytecode with
  | none =>
    if st.maybeSourceMap.isSome then none
    else some (some enabledMessage, st)
  | some bytes =>
    if TooBig < bytes.length then
      if st.maybeSourceMap.isSome then none
      else some (some tooBigMessage, st)
    else
      match render bytes with
      | (none, locs, lines) =>
        some (none, { st with maybeSourceMap := some ⟨locs, none, lines⟩ })
      | (some text, locs, lines) =>
        if linenoSorted locs then
          some (some text, { st with maybeSourceMap := some ⟨locs, none, lines⟩ })
        else
          none

/-- `DebugState::ensureSourceMap(cx)`: a no-op when a map exists or no
bytecode is retained; otherwise delegates to `createText` and reports
whether it produced a string. -/
def ensureSourceMap (render : Render) (st : DebugState) :
    Option (Bool × DebugState) :=
  if st.maybeSourceMap.isSome || st.maybeBytecode.isNone then
    some (true, st)
  else
    (createText render st).map (fun r => (r.1.isSome, r.2))

/-- `mozilla::BinarySearchIf` over positions `[low, high)`: `(true, m)` with
`f m = 0` on a hit, `(false, insertionPoint)` otherwise. -/
def binarySearchIf (f : Nat → Int) (low high : Nat) : Bool × Nat :=
  if h : low < high then
    if f (low + (high - low) / 2) = 0 then
      (true, low + (high - low) / 2)
    else if f (low + (high - low) / 2) < 0 then
      binarySearchIf f low (low + (high - low) / 2)
    else
      binarySearchIf f (low + (high - low) / 2 + 1) high
  else
    (false, low)
termination_by high - low
decreasing_by
  all_goals omega

/-- The comparator of the lazily built offset index: `exprlocs_[i].offset ≤
exprlocs_[j].offset` (a `lessOrEqual` comparator, so `MergeSort` is
stable). -/
def exprlocOffsetLe (exprlocs : List ExprLoc) (i j : Nat) : Bool :=
  decide ((exprlocs.getD i default).offset ≤ (exprlocs.getD j default).offset)

/-- The lazily built `sortedByOffsetExprLocIndices_`: the identity
permutation of `exprlocs` stably merge-sorted by offset. -/
def buildSortedOffsetIndices (exprlocs : List ExprLoc) : List Nat :=
  (List.range exprlocs.length).mergeSort (exprlocOffsetLe exprlocs)

/-- The `lookupFn` comparator of `searchLineByOffset` applied to an index
`i` into `exprlocs`. -/
def offsetLookupCmp (exprlocs : List ExprLoc) (offset i : Nat) : Int :=
  if offset = (exprlocs.getD i default).offset then 0
  else if offset < (exprlocs.getD i default).offset then -1
  else 1

/-- `GeneratedSourceMap::searchLineByOffset(cx, offset, exprlocIndex)`:
builds the offset index if absent, binary-searches it, clamps an
out-of-bounds insertion point to the last position, and returns the
(possibly updated) map together with the found index into `exprlocs`.
`none` is the `MOZ_ASSERT(!exprlocs_.empty())` failure. -/
def searchLineByOffset (m : GeneratedSourceMap) (offset : Nat) :
    Option (GeneratedSourceMap × Nat) :=
  if m.exprlocs.isEmpty then
    none
  else
    let indices :=
      match m.sortedByOffsetExprLocIndices with
      | some idx => idx
      | none => buildSortedOffsetIndices m.exprlocs
    let len := m.exprlocs.length
    let found := binarySearchIf
      (fun pos => offsetLookupCmp m.exprlocs offset (indices.getD pos 0)) 0 len
    let matchIdx := if len ≤ found.2 then len - 1 else found.2
    some ({ m with sortedByOffsetExprLocIndices := some indices },
          indices.getD matchIdx 0)

/-- `DebugState::getOffsetLocation(cx, offset, found, lineno, column)`:
`(ok, found, lineno, column, state)`. -/
def getOffsetLocation (render : Render) (st : DebugState) (offset : Nat) :
    Option (Bool × Bool × Nat × Nat × DebugState) :=
  if st.metadata.debugEnabled = false then
    some (true, false, 0, 0, st)
  else
    match ensureSourceMap render st with
    | none => none
    | some (ok, st1) =>
      if ok = false then
        some (false, false, 0, 0, st1)
      else
        match st1.maybeSourceMap with
        | none => some (true, false, 0, 0, st1)
        | some m =>
          if m.exprlocs.isEmpty then
            some (true, false, 0, 0, st1)
          else
            match searchLineByOffset m offset with
            | none => none
            | some (m', idx) =>
              let loc := m'.exprlocs.getD idx default
              some (true, true, loc.lineno, loc.column,
                    { st1 with maybeSourceMap := some m' })

/-- The `LineComparator` of `getLineOffsets`. -/
def lineLookupCmp (lineno : Nat) (loc : ExprLoc) : Int :=
  if lineno = loc.lineno then 0
  else if lineno < loc.lineno then -1
  else 1

/-- The rewind loop of `getLineOffsets`: step back while the previous entry
shares the line number. -/
def rewindToLineStart (exprlocs : List ExprLoc) (lineno : Nat) : Nat → Nat
  | 0 => 0
  | m + 1 =>
    if (exprlocs.getD m default).lineno = lineno then
      rewindToLineStart exprlocs lineno m
    else
      m + 1

/-- The collection loop of `getLineOffsets`: from `start`, append offsets
while the line number matches. -/
def collectLineOffsets (exprlocs : List ExprLoc) (lineno start : Nat) : List Nat :=
  ((exprlocs.drop start).takeWhile (fun e => decide (e.lineno = lineno))).map
    (fun e => e.offset)

/-- `DebugState::getLineOffsets(cx, lineno, offsets)`: `(ok, appended
offsets, state)`. -/
def getLineOffsets (render : Render) (st : DebugState) (lineno : Nat) :
    Option (Bool × List Nat × DebugState) :=
  if st.metadata.debugEnabled = false then
    some (true, [], st)
  else
    match ensureSourceMap render st with
    | none => none
    | some (ok, st1) =>
      if ok = false then
        some (false, [], st1)
      else
        match st1.maybeSourceMap with
        | none => some (true, [], st1)
        | some m =>
          let found := binarySearchIf
            (fun pos => lineLookupCmp lineno (m.exprlocs.getD pos default))
            0 m.exprlocs.length
          if found.1 = false then
            some (true, [], st1)
          else
            some (true,
                  collectLineOffsets m.exprlocs lineno
                    (rewindToLineStart m.exprlocs lineno found.2),
                  st1)

/-- The `DebugState` constructor: fresh (unpatched) code, empty registries,
zero counters; asserts `MOZ_ASSERT_IF(metadata_->debugEnabled,
maybeBytecode)`. -/
def DebugState.init (md : Metadata) (maybeBytecode : Option (List Nat)) :
    Option DebugState :=
  if md.debugEnabled ∧ maybeBytecode.isNone then
    none
  else
    some { metadata := md
           maybeBytecode := maybeBytecode
           maybeSourceMap := none
           breakpointSites := []
           stepModeCounters := []
           enterAndLeaveFrameTrapsCounter := 0
           traps := fun _ => none }

/-- The far-jump trampoline offset `toggleDebugTrap` patches in when
enabling a trap at `o`. -/
def farJumpTarget (farJumpOffsets : List Nat) (o : Nat) : Nat :=
  farJumpOffsets.getD (debugTrapFarJumpIndex farJumpOffsets o) 0

/-- The trap state a call-site offset ends in after being toggled to
`enabledOf o`: a patched call to the selected trampoline, or the no-op. -/
def patchedValue (farJumpOffsets : List Nat) (enabledOf : Nat → Bool) (o : Nat) :
    Option Nat :=
  if enabledOf o then some (farJumpTarget farJumpOffsets o) else none

/-- `n` successive applications of a fallible `DebugState` operation. -/
def iterateOp (op : DebugState → Option DebugState) : Nat → DebugState → Option DebugState
  | 0, st => some st
  | n + 1, st => (op st).bind (iterateOp op n)

/-- The state reached while function `f` is in step mode with count `k` and
the code segment patched to `t1` (abbreviation for the step-mode theorems). -/
def smStage (st : DebugState) (f k : Nat) (t1 : Nat → Option Nat) : DebugState :=
  { st with stepModeCounters := (f, k) :: st.stepModeCounters, traps := t1 }

/-- One successful `DebugState` operation, as a step relation between
states (used to express invariants over all reachable states). -/
inductive DebugStep (render : Render) (st : DebugState) : DebugState → Prop
  | createText (r : Option String) (st' : DebugState) :
      createText render st = some (r, st') → DebugStep render st st'
  | ensureSourceMap (b : Bool) (st' : DebugState) :
      ensureSourceMap render st = some (b, st') → DebugStep render st st'
  | getOffsetLocation (offset : Nat)
      (out : Bool × Bool × Nat × Nat × DebugState) :
      getOffsetLocation render st offset = some out →
      DebugStep render st out.2.2.2.2
  | getLineOffsets (lineno : Nat) (out : Bool × List Nat × DebugState) :
      getLineOffsets render st lineno = some out → DebugStep render st out.2.2
  | toggleBreakpointTrap (offset : Nat) (enabled : Bool) (st' : DebugState) :
      toggleBreakpointTrap st offset enabled = some st' → DebugStep render st st'
  | incrementStepModeCount (funcIndex : Nat) (st' : DebugState) :
      incrementStepModeCount st funcIndex = some st' → DebugStep render st st'
  | decrementStepModeCount (funcIndex : Nat) (st' : DebugState) :
      decrementStepModeCount st funcIndex = some st' → DebugStep render st st'
  | adjustEnterAndLeaveFrameTrapsState (enabled : Bool) (st' : DebugState) :
      adjustEnterAndLeaveFrameTrapsState st enabled = some st' →
      DebugStep render st st'
  | getOrCreateBreakpointSite (offset : Nat) :
      DebugStep render st (getOrCreateBreakpointSite st offset)
  | destroyBreakpointSite (offset : Nat) (st' : DebugState) :
      destroyBreakpointSite st offset = some st' → DebugStep render st st'

/-- Distance between two code offsets, following the specification's words
for the nearest-trampoline selection rule (spec-side definition, to be
compared against `debugTrapFarJumpIndex`). -/
def specOffsetDistance (a b : Nat) : Nat :=
  max a b - min a b

/-- Sample metadata for concrete witnesses: one function whose code range
is `[50, 200)`, one breakpoint call site (bytecode offset 10, return
address 100), enter/leave-frame sites at 40 and 60, one far-jump
trampoline at 120. -/
def mdW : Metadata :=
  { debugEnabled := true
    callSites := [⟨CallSiteKind.breakpoint, 100, 10⟩,
                  ⟨CallSiteKind.enterFrame, 40, 0⟩,
                  ⟨CallSiteKind.leaveFrame, 60, 0⟩]
    codeRanges := [⟨50, 200, 0, true⟩]
    debugFuncToCodeRange := [0]
    debugTrapFarJumpOffsets := [120] }

/-- Sample state with function 0 in step mode and a breakpoint site
registered at the breakpoint call site's return-address offset. -/
def stW : DebugState :=
  { metadata := mdW
    maybeBytecode := some [0]
    maybeSourceMap := none
    breakpointSites := [100]
    stepModeCounters := [(0, 1)]
    enterAndLeaveFrameTrapsCounter := 0
    traps := fun o => if o = 100 then some 120 else none }

/-- Sample state like `stW` but with no step mode active. -/
def stW2 : DebugState :=
  { metadata := mdW
    maybeBytecode := some [0]
    maybeSourceMap := none
    breakpointSites := [100]
    stepModeCounters := []
    enterAndLeaveFrameTrapsCounter := 0
    traps := fun o => if o = 100 then some 120 else none }

/-- Sample state like `stW2` but with one enter/leave-frame trap consumer
registered. -/
def stFrame : DebugState :=
  { metadata := mdW
    maybeBytecode := some [0]
    maybeSourceMap := none
    breakpointSites := [100]
    stepModeCounters := []
    enterAndLeaveFrameTrapsCounter := 1
    traps := fun o => if o = 100 then some 120 else none }

/-- Sample state with empty call-site table (no breakpoint-capable site
anywhere). -/
def stEmptySites : DebugState :=
  { metadata := { debugEnabled := true
                  callSites := []
                  codeRanges := []
                  debugFuncToCodeRange := []
                  debugTrapFarJumpOffsets := [] }
    maybeBytecode := some []
    maybeSourceMap := none
    breakpointSites := []
    stepModeCounters := []
    enterAndLeaveFrameTrapsCounter := 0
    traps := fun _ => none }

/-- Sample source map (unsorted offsets, lines 1..3) for index witnesses. -/
def mapW : GeneratedSourceMap :=
  { exprlocs := [⟨30, 1, 0⟩, ⟨10, 2, 0⟩, ⟨20, 3, 4⟩]
    sortedByOffsetExprLocIndices := none
    totalLines := 3 }

/-- Sample line-sorted, offset-sorted source map for `getLineOffsets`
witnesses. -/
def mapL : GeneratedSourceMap :=
  { exprlocs := [⟨1, 1, 0⟩, ⟨2, 2, 0⟩, ⟨3, 2, 1⟩, ⟨4, 3, 0⟩]
    sortedByOffsetExprLocIndices := none
    totalLines := 3 }

/-- Sample state holding `mapL` with debugging enabled. -/
def stMapL : DebugState :=
  { metadata := mdW
    maybeBytecode := some [0]
    maybeSourceMap := some mapL
    breakpointSites := []
    stepModeCounters := []
    enterAndLeaveFrameTrapsCounter := 0
    traps := fun _ => none }

/-- Sample state with no retained bytecode and debugging disabled. -/
def stNoBytecode : DebugState :=
  { metadata := { debugEnabled := false
                  callSites := []
                  codeRanges := []
                  debugFuncToCodeRange := []
                  debugTrapFarJumpOffsets := [] }
    maybeBytecode := none
    maybeSourceMap := none
    breakpointSites := []
    stepModeCounters := []
    enterAndLeaveFrameTrapsCounter := 0
    traps := fun _ => none }

/-- Sample state whose bytecode exceeds the `TooBig` ceiling. -/
def stBig : DebugState :=
  { metadata := { debugEnabled := true
                  callSites := []
                  codeRanges := []
                  debugFuncToCodeRange := []
                  debugTrapFarJumpOffsets := [] }
    maybeBytecode := some (List.replicate 1000001 0)
    maybeSourceMap := none
    breakpointSites := []
    stepModeCounters := []
    enterAndLeaveFrameTrapsCounter := 0
    traps := fun _ => none }

/-- A trivial renderer for witnesses. -/
def renderW : Render :=
  fun _ => (some "", [], 0)

/-- A renderer producing `mapL`'s expression locations. -/
def renderL : Render :=
  fun _ => (some "", mapL.exprlocs, 3)

/-- The freshly constructed state from which `stMapL` is reachable by one
`createText` step. -/
def stInitL : DebugState :=
  { metadata := mdW
    maybeBytecode := some [0]
    maybeSourceMap := none
    breakpointSites := []
    stepModeCounters := []
    enterAndLeaveFrameTrapsCounter := 0
    traps := fun _ => none }

/-- Sample line-sorted map whose single line's offsets descend: the
renderer emitted line 1 at offset 5 before offset 4. -/
def mapD : GeneratedSourceMap :=
  { exprlocs := [⟨5, 1, 0⟩, ⟨4, 1, 1⟩]
    sortedByOffsetExprLocIndices := none
    totalLines := 1 }

/-- Sample state holding `mapD` with debugging enabled. -/
def stMapD : DebugState :=
  { metadata := mdW
    maybeBytecode := some [0]
    maybeSourceMap := some mapD
    breakpointSites := []
    stepModeCounters := []
    enterAndLeaveFrameTrapsCounter := 0
    traps := fun _ => none }

/-- A renderer producing `mapD`'s expression locations. -/
def renderD : Render :=
  fun _ => (some "", mapD.exprlocs, 1)

/-! ## Theorems -/

/-- Successful `createText` leaves metadata and bytecode untouched and
either leaves the state unchanged or installs a source map (which requires
retained bytecode). -/
theorem createText_state {render : Render} {st : DebugState} {r : Option String}
    {st' : DebugState} (h : createText render st = some (r, st')) :
    st'.metadata = st.metadata ∧ st'.maybeBytecode = st.maybeBytecode ∧
      (st' = st ∨
        (st.maybeBytecode.isSome = true ∧ st'.maybeSourceMap.isSome = true)) := by
  obtain ⟨md, mb, msm, bps, smc, ct, tr⟩ := st
  unfold createText at h
  cases mb with
  | none =>
    dsimp only at h
    by_cases hm : msm.isSome = true
    · simp [hm] at h
    · rw [if_neg hm] at h
      simp only [Option.some.injEq, Prod.mk.injEq] at h
      obtain ⟨-, h2⟩ := h
      subst h2
      exact ⟨rfl, rfl, Or.inl rfl⟩
  | some bytes =>
    dsimp only at h
    by_cases hbig : TooBig < bytes.length
    · rw [if_pos hbig] at h
      by_cases hm : msm.isSome = true
      · simp [hm] at h
      · rw [if_neg hm] at h
        simp only [Option.some.injEq, Prod.mk.injEq] at h
        obtain ⟨-, h2⟩ := h
        subst h2
        exact ⟨rfl, rfl, Or.inl rfl⟩
    · rw [if_neg hbig] at h
      cases hr : render bytes with
      | mk text rest =>
        rw [hr] at h
        obtain ⟨locs, lines⟩ := rest
        cases text with
        | none =>
          simp only [Option.some.injEq, Prod.mk.injEq] at h
          obtain ⟨-, h2⟩ := h
          subst h2
          exact ⟨rfl, rfl, Or.inr ⟨rfl, rfl⟩⟩
        | some t =>
          dsimp only at h
          by_cases hs : linenoSorted locs = true
          · simp only [hs, if_true, Option.some.injEq, Prod.mk.injEq] at h
            obtain ⟨-, h2⟩ := h
            subst h2
            exact ⟨rfl, rfl, Or.inr ⟨rfl, rfl⟩⟩
          · rw [if_neg hs] at h
            exact Option.noConfusion h

/-- Successful `ensureSourceMap` leaves metadata and bytecode untouched and
either leaves the state unchanged or installs a source map. -/
theorem ensureSourceMap_state {render : Render} {st : DebugState} {b : Bool}
    {st' : DebugState} (h : ensureSourceMap render st = some (b, st')) :
    st'.metadata = st.metadata ∧ st'.maybeBytecode = st.maybeBytecode ∧
      (st' = st ∨
        (st.maybeBytecode.isSome = true ∧ st'.maybeSourceMap.isSome = true)) := by
  unfold ensureSourceMap at h
  by_cases hc : (st.maybeSourceMap.isSome || st.maybeBytecode.isNone) = true
  · rw [if_pos hc] at h
    simp only [Option.some.injEq, Prod.mk.injEq] at h
    exact ⟨by rw [← h.2], by rw [← h.2], Or.inl h.2.symm⟩
  · rw [if_neg hc] at h
    cases hct : createText render st with
    | none => rw [hct] at h; exact Option.noConfusion h
    | some p =>
      rw [hct] at h
      have h' : (p.1.isSome, p.2) = (b, st') := Option.some.inj h
      have h2 : p.2 = st' := congrArg Prod.snd h'
      have hcs := createText_state
        (show createText render st = some (p.1, p.2) from hct)
      rw [h2] at hcs
      exact hcs

/-- C6: with no retained bytecode, `createText` returns the fixed
"developer tools" message and no source map is constructed; with bytecode
longer than the `TooBig` ceiling it returns the fixed "too big" message and
`ensureSourceMap` leaves the map unset; in both cases `getOffsetLocation`
reports `found = false` with a success return, leaving the state
unchanged. -/
theorem createText_fixed_messages (render : Render) (st : DebugState)
    (offset : Nat) (hmap : st.maybeSourceMap = none) :
    (st.maybeBytecode = none →
      createText render st = some (some enabledMessage, st) ∧
      ensureSourceMap render st = some (true, st) ∧
      getOffsetLocation render st offset = some (true, false, 0, 0, st)) ∧
    (∀ bytes, st.maybeBytecode = some bytes → TooBig < bytes.length →
      createText render st = some (some tooBigMessage, st) ∧
      ensureSourceMap render st = some (true, st) ∧
      getOffsetLocation render st offset = some (true, false, 0, 0, st)) := by
  constructor
  · intro hb
    have hct : createText render st = some (some enabledMessage, st) := by
      unfold createText
      rw [hb]
      dsimp only
      rw [hmap]
      simp
    have hens : ensureSourceMap render st = some (true, st) := by
      unfold ensureSourceMap
      rw [hb]
      simp
    refine ⟨hct, hens, ?_⟩
    unfold getOffsetLocation
    by_cases hd : st.metadata.debugEnabled = false
    · rw [if_pos hd]
    · rw [if_neg hd, hens]
      simp [hmap]
  · intro bytes hb hbig
    have hct : createText render st = some (some tooBigMessage, st) := by
      unfold createText
      rw [hb]
      dsimp only
      rw [if_pos hbig, hmap]
      simp
    have hens : ensureSourceMap render st = some (true, st) := by
      unfold ensureSourceMap
      rw [hmap, hb]
      simp only [Option.isSome_none, Option.isNone_some, Bool.or_self,
        Bool.false_eq_true, if_false]
      rw [hct]
      rfl
    refine ⟨hct, hens, ?_⟩
    unfold getOffsetLocation
    by_cases hd : st.metadata.debugEnabled = false
    · rw [if_pos hd]
    · rw [if_neg hd, hens]
      simp [hmap]

/-- C6 witness: on the concrete states with no bytecode and with oversized
bytecode. -/
theorem createText_fixed_messages_witness :
    createText renderW stNoBytecode = some (some enabledMessage, stNoBytecode) ∧
    createText renderW stBig = some (some tooBigMessage, stBig) ∧
    ensureSourceMap renderW stBig = some (true, stBig) ∧
    getOffsetLocation renderW stBig 3 = some (true, false, 0, 0, stBig) := by
  have h1 := (createText_fixed_messages renderW stNoBytecode 3 rfl).1 rfl
  have h2 := (createText_fixed_messages renderW stBig 3 rfl).2
    (List.replicate 1000001 0) rfl
    (by rw [List.length_replicate]; norm_num [TooBig])
  exact ⟨h1.1, h2.1, h2.2.1, h2.2.2⟩

/-- `toggleBreakpointTrap` never touches metadata, bytecode or the source
map. -/
theorem toggleBreakpointTrap_state {st : DebugState} {offset : Nat}
    {enabled : Bool} {st' : DebugState}
    (h : toggleBreakpointTrap st offset enabled = some st') :
    st'.metadata = st.metadata ∧ st'.maybeBytecode = st.maybeBytecode ∧
      st'.maybeSourceMap = st.maybeSourceMap := by
  unfold toggleBreakpointTrap at h
  split at h
  · exact Option.noConfusion h
  · split at h
    · obtain rfl := Option.some.inj h
      exact ⟨rfl, rfl, rfl⟩
    · dsimp only at h
      split at h
      · exact Option.noConfusion h
      · split at h
        · exact Option.noConfusion h
        · split at h
          · obtain rfl := Option.some.inj h
            exact ⟨rfl, rfl, rfl⟩
          · rcases Option.map_eq_some'.mp h with ⟨t, -, ht⟩
            rw [← ht]
            exact ⟨rfl, rfl, rfl⟩

/-- `incrementStepModeCount` never touches metadata, bytecode or the source
map. -/
theorem incrementStepModeCount_state {st : DebugState} {f : Nat}
    {st' : DebugState} (h : incrementStepModeCount st f = some st') :
    st'.metadata = st.metadata ∧ st'.maybeBytecode = st.maybeBytecode ∧
      st'.maybeSourceMap = st.maybeSourceMap := by
  unfold incrementStepModeCount at h
  split at h
  · exact Option.noConfusion h
  · split at h
    · exact Option.noConfusion h
    · split at h
      · exact Option.noConfusion h
      · split at h
        · split at h
          · exact Option.noConfusion h
          · obtain rfl := Option.some.inj h
            exact ⟨rfl, rfl, rfl⟩
        · rcases Option.map_eq_some'.mp h with ⟨t, -, ht⟩
          rw [← ht]
          exact ⟨rfl, rfl, rfl⟩

/-- `decrementStepModeCount` never touches metadata, bytecode or the source
map. -/
theorem decrementStepModeCount_state {st : DebugState} {f : Nat}
    {st' : DebugState} (h : decrementStepModeCount st f = some st') :
    st'.metadata = st.metadata ∧ st'.maybeBytecode = st.maybeBytecode ∧
      st'.maybeSourceMap = st.maybeSourceMap := by
  unfold decrementStepModeCount at h
  split at h
  · exact Option.noConfusion h
  · split at h
    · exact Option.noConfusion h
    · split at h
      · exact Option.noConfusion h
      · split at h
        · exact Option.noConfusion h
        · split at h
          · exact Option.noConfusion h
          · dsimp only at h
            split at h
            · obtain rfl := Option.some.inj h
              exact ⟨rfl, rfl, rfl⟩
            · rcases Option.map_eq_some'.mp h with ⟨t, -, ht⟩
              rw [← ht]
              exact ⟨rfl, rfl, rfl⟩

/-- `adjustEnterAndLeaveFrameTrapsState` never touches metadata, bytecode
or the source map. -/
theorem adjustEnterAndLeaveFrameTrapsState_state {st : DebugState}
    {e : Bool} {st' : DebugState}
    (h : adjustEnterAndLeaveFrameTrapsState st e = some st') :
    st'.metadata = st.metadata ∧ st'.maybeBytecode = st.maybeBytecode ∧
      st'.maybeSourceMap = st.maybeSourceMap := by
  unfold adjustEnterAndLeaveFrameTrapsState at h
  split at h
  · exact Option.noConfusion h
  · split at h
    · exact Option.noConfusion h
    · dsimp only at h
      split at h
      all_goals split at h
      all_goals
        first
          | (obtain rfl := Option.some.inj h
             exact ⟨rfl, rfl, rfl⟩)
          | (rcases Option.map_eq_some'.mp h with ⟨t, -, ht⟩
             rw [← ht]
             exact ⟨rfl, rfl, rfl⟩)

/-- `getOrCreateBreakpointSite` never touches metadata, bytecode or the
source map. -/
theorem getOrCreateBreakpointSite_state (st : DebugState) (offset : Nat) :
    (getOrCreateBreakpointSite st offset).metadata = st.metadata ∧
      (getOrCreateBreakpointSite st offset).maybeBytecode = st.maybeBytecode ∧
      (getOrCreateBreakpointSite st offset).maybeSourceMap = st.maybeSourceMap := by
  unfold getOrCreateBreakpointSite
  split <;> exact ⟨rfl, rfl, rfl⟩

/-- `destroyBreakpointSite` never touches metadata, bytecode or the source
map. -/
theorem destroyBreakpointSite_state {st : DebugState} {offset : Nat}
    {st' : DebugState} (h : destroyBreakpointSite st offset = some st') :
    st'.metadata = st.metadata ∧ st'.maybeBytecode = st.maybeBytecode ∧
      st'.maybeSourceMap = st.maybeSourceMap := by
  unfold destroyBreakpointSite at h
  split at h
  · obtain rfl := Option.some.inj h
    exact ⟨rfl, rfl, rfl⟩
  · exact Option.noConfusion h

/-- `getOffsetLocation` never touches metadata or bytecode, and changes the
source map slot only when one was installed or already present. -/
theorem getOffsetLocation_state {render : Render} {st : DebugState}
    {offset : Nat} {out : Bool × Bool × Nat × Nat × DebugState}
    (h : getOffsetLocation render st offset = some out) :
    out.2.2.2.2.metadata = st.metadata ∧
      out.2.2.2.2.maybeBytecode = st.maybeBytecode ∧
      (out.2.2.2.2.maybeSourceMap = st.maybeSourceMap ∨
        st.maybeBytecode.isSome = true ∨ st.maybeSourceMap.isSome = true) := by
  unfold getOffsetLocation at h
  split at h
  · obtain rfl := Option.some.inj h
    exact ⟨rfl, rfl, Or.inl rfl⟩
  · split at h
    · exact Option.noConfusion h
    · rename_i ok st1 hens
      have hst1 := ensureSourceMap_state hens
      have hbase : st1.metadata = st.metadata ∧
          st1.maybeBytecode = st.maybeBytecode ∧
          (st1.maybeSourceMap = st.maybeSourceMap ∨
            st.maybeBytecode.isSome = true) := by
        rcases hst1.2.2 with h1 | h2
        · subst h1
          exact ⟨rfl, rfl, Or.inl rfl⟩
        · exact ⟨hst1.1, hst1.2.1, Or.inr h2.1⟩
      have hfin1 : ∀ out2 : Bool × Bool × Nat × Nat × DebugState,
          out2.2.2.2.2 = st1 →
          out2.2.2.2.2.metadata = st.metadata ∧
            out2.2.2.2.2.maybeBytecode = st.maybeBytecode ∧
            (out2.2.2.2.2.maybeSourceMap = st.maybeSourceMap ∨
              st.maybeBytecode.isSome = true ∨
              st.maybeSourceMap.isSome = true) := by
        intro out2 hr
        rw [hr]
        rcases hbase.2.2 with h1 | h2
        · exact ⟨hbase.1, hbase.2.1, Or.inl h1⟩
        · exact ⟨hbase.1, hbase.2.1, Or.inr (Or.inl h2)⟩
      split at h
      · exact hfin1 out
          ((congrArg (fun p => p.2.2.2.2) (Option.some.inj h)).symm)
      · split at h
        · exact hfin1 out
            ((congrArg (fun p => p.2.2.2.2) (Option.some.inj h)).symm)
        · rename_i m hm
          split at h
          · exact hfin1 out
              ((congrArg (fun p => p.2.2.2.2) (Option.some.inj h)).symm)
          · split at h
            · exact Option.noConfusion h
            · dsimp only at h
              have hr :=
                ((congrArg (fun p : Bool × Bool × Nat × Nat × DebugState =>
                  p.2.2.2.2) (Option.some.inj h))).symm
              refine ⟨?_, ?_, ?_⟩
              · rw [hr]; exact hbase.1
              · rw [hr]; exact hbase.2.1
              · rcases hbase.2.2 with h1 | h2
                · refine Or.inr (Or.inr ?_)
                  rw [← h1, hm]
                  rfl
                · exact Or.inr (Or.inl h2)

/-- `getLineOffsets` never touches metadata or bytecode, and changes the
source map slot only when one was installed. -/
theorem getLineOffsets_state {render : Render} {st : DebugState}
    {lineno : Nat} {out : Bool × List Nat × DebugState}
    (h : getLineOffsets render st lineno = some out) :
    out.2.2.metadata = st.metadata ∧ out.2.2.maybeBytecode = st.maybeBytecode ∧
      (out.2.2.maybeSourceMap = st.maybeSourceMap ∨
        st.maybeBytecode.isSome = true ∨ st.maybeSourceMap.isSome = true) := by
  unfold getLineOffsets at h
  split at h
  · obtain rfl := Option.some.inj h
    exact ⟨rfl, rfl, Or.inl rfl⟩
  · split at h
    · exact Option.noConfusion h
    · rename_i ok st1 hens
      have hst1 := ensureSourceMap_state hens
      have hfin : ∀ r : Bool × List Nat × DebugState, r.2.2 = st1 →
          r.2.2.metadata = st.metadata ∧ r.2.2.maybeBytecode = st.maybeBytecode ∧
            (r.2.2.maybeSourceMap = st.maybeSourceMap ∨
              st.maybeBytecode.isSome = true ∨ st.maybeSourceMap.isSome = true) := by
        intro r hr
        rw [hr]
        rcases hst1.2.2 with h1 | h2
        · rw [h1]; exact ⟨rfl, rfl, Or.inl rfl⟩
        · exact ⟨hst1.1, hst1.2.1, Or.inr (Or.inl h2.1)⟩
      split at h
      · exact hfin out (congrArg (fun p => p.2.2) (Option.some.inj h)).symm
      · split at h
        · exact hfin out (congrArg (fun p => p.2.2) (Option.some.inj h)).symm
        · dsimp only at h
          split at h
          · exact hfin out (congrArg (fun p => p.2.2) (Option.some.inj h)).symm
          · exact hfin out (congrArg (fun p => p.2.2) (Option.some.inj h)).symm

/-- Any single `DebugState` operation preserves metadata and bytecode, and
can only install a source map when bytecode is retained (or one was already
present). -/
theorem debugStep_fields {render : Render} {st st' : DebugState}
    (h : DebugStep render st st') :
    st'.metadata = st.metadata ∧ st'.maybeBytecode = st.maybeBytecode ∧
      (st'.maybeSourceMap = st.maybeSourceMap ∨
        st.maybeBytecode.isSome = true ∨ st.maybeSourceMap.isSome = true) := by
  cases h with
  | createText r st2 hop =>
    have hs := createText_state hop
    rcases hs.2.2 with h1 | h2
    · rw [h1]; exact ⟨rfl, rfl, Or.inl rfl⟩
    · exact ⟨hs.1, hs.2.1, Or.inr (Or.inl h2.1)⟩
  | ensureSourceMap b st2 hop =>
    have hs := ensureSourceMap_state hop
    rcases hs.2.2 with h1 | h2
    · rw [h1]; exact ⟨rfl, rfl, Or.inl rfl⟩
    · exact ⟨hs.1, hs.2.1, Or.inr (Or.inl h2.1)⟩
  | getOffsetLocation offset out hop => exact getOffsetLocation_state hop
  | getLineOffsets lineno out hop => exact getLineOffsets_state hop
  | toggleBreakpointTrap offset enabled st2 hop =>
    have hs := toggleBreakpointTrap_state hop
    exact ⟨hs.1, hs.2.1, Or.inl hs.2.2⟩
  | incrementStepModeCount f st2 hop =>
    have hs := incrementStepModeCount_state hop
    exact ⟨hs.1, hs.2.1, Or.inl hs.2.2⟩
  | decrementStepModeCount f st2 hop =>
    have hs := decrementStepModeCount_state hop
    exact ⟨hs.1, hs.2.1, Or.inl hs.2.2⟩
  | adjustEnterAndLeaveFrameTrapsState e st2 hop =>
    have hs := adjustEnterAndLeaveFrameTrapsState_state hop
    exact ⟨hs.1, hs.2.1, Or.inl hs.2.2⟩
  | getOrCreateBreakpointSite offset =>
    have hs := getOrCreateBreakpointSite_state st offset
    exact ⟨hs.1, hs.2.1, Or.inl hs.2.2⟩
  | destroyBreakpointSite offset st2 hop =>
    have hs := destroyBreakpointSite_state hop
    exact ⟨hs.1, hs.2.1, Or.inl hs.2.2⟩

/-- Every state reachable from a freshly constructed `DebugState` keeps the
construction-time metadata and bytecode, and holds a source map only if
bytecode is retained. -/
theorem reachable_invariant {render : Render} {md : Metadata}
    {mb : Option (List Nat)} {st0 st : DebugState}
    (hinit : DebugState.init md mb = some st0)
    (hreach : Relation.ReflTransGen (DebugStep render) st0 st) :
    st.metadata = md ∧ st.maybeBytecode = mb ∧
      (st.maybeSourceMap.isSome = true → st.maybeBytecode.isSome = true) := by
  induction hreach with
  | refl =>
    unfold DebugState.init at hinit
    split at hinit
    · exact Option.noConfusion hinit
    · obtain rfl := Option.some.inj hinit
      exact ⟨rfl, rfl, fun hsome => by simp at hsome⟩
  | tail hsteps hstep ih =>
    obtain ⟨hm, hb, hinv⟩ := ih
    obtain ⟨hm', hb', hor⟩ := debugStep_fields hstep
    refine ⟨hm'.trans hm, hb'.trans hb, ?_⟩
    intro hsome
    rcases hor with h1 | h2 | h3
    · rw [hb']
      apply hinv
      rw [← h1]
      exact hsome
    · rw [hb']
      exact h2
    · rw [hb']
      exact hinv h3

/-- C7: in every reachable `DebugState`, a `GeneratedSourceMap` exists only
if debugging is enabled and raw bytecode was supplied, and `ensureSourceMap`
is idempotent: when a map is present or no bytecode is retained it succeeds
leaving the state unchanged, and after any successful call a repeat call
succeeds without rebuilding or replacing the map. -/
theorem sourceMap_only_if_debugging_and_ensure_idempotent (render : Render)
    (md : Metadata) (mb : Option (List Nat)) (st0 st : DebugState)
    (hinit : DebugState.init md mb = some st0)
    (hb : mb.isSome = true → md.debugEnabled = true)
    (hreach : Relation.ReflTransGen (DebugStep render) st0 st) :
    (st.maybeSourceMap.isSome = true →
      st.maybeBytecode.isSome = true ∧ st.metadata.debugEnabled = true) ∧
    (st.maybeSourceMap.isSome = true ∨ st.maybeBytecode = none →
      ensureSourceMap render st = some (true, st)) ∧
    (∀ b st', ensureSourceMap render st = some (b, st') → b = true →
      ensureSourceMap render st' = some (true, st')) := by
  obtain ⟨hm, hbc, hinv⟩ := reachable_invariant hinit hreach
  refine ⟨?_, ?_, ?_⟩
  · intro hsome
    have h1 := hinv hsome
    refine ⟨h1, ?_⟩
    rw [hm]
    apply hb
    rw [← hbc]
    exact h1
  · intro hc
    unfold ensureSourceMap
    rcases hc with h1 | h2
    · rw [if_pos (by rw [h1]; rfl)]
    · rw [if_pos (by rw [h2]; simp)]
  · intro b st' hens hbtrue
    subst hbtrue
    unfold ensureSourceMap at hens
    split at hens
    · rename_i hcond
      have hstst : st = st' := congrArg Prod.snd (Option.some.inj hens)
      subst hstst
      unfold ensureSourceMap
      rw [if_pos hcond]
    · rename_i hcond
      simp only [Bool.or_eq_true, not_or, Bool.not_eq_true] at hcond
      obtain ⟨hms, hmbn⟩ := hcond
      rcases Option.map_eq_some'.mp hens with ⟨⟨r, stc⟩, hct, hpair⟩
      have hr : r.isSome = true := congrArg Prod.fst hpair
      have hst' : stc = st' := congrArg Prod.snd hpair
      subst hst'
      obtain ⟨bytes, hmb⟩ : ∃ bytes, st.maybeBytecode = some bytes := by
        cases hmbx : st.maybeBytecode with
        | none => rw [hmbx] at hmbn; simp at hmbn
        | some bytes => exact ⟨bytes, rfl⟩
      unfold createText at hct
      rw [hmb] at hct
      dsimp only at hct
      by_cases hbig : TooBig < bytes.length
      · rw [if_pos hbig, if_neg (by rw [hms]; simp)] at hct
        have hstv : st = stc := congrArg Prod.snd (Option.some.inj hct)
        subst hstv
        unfold ensureSourceMap
        rw [if_neg (by simp only [Bool.or_eq_true, not_or, Bool.not_eq_true]; exact ⟨hms, hmbn⟩)]
        unfold createText
        rw [hmb]
        dsimp only
        rw [if_pos hbig, if_neg (by rw [hms]; simp)]
        rfl
      · rw [if_neg hbig] at hct
        cases hrr : render bytes with
        | mk text rest =>
          rw [hrr] at hct
          obtain ⟨locs, lines⟩ := rest
          cases text with
          | none =>
            have hrv : (none : Option String) = r :=
              congrArg Prod.fst (Option.some.inj hct)
            rw [← hrv] at hr
            simp at hr
          | some t =>
            dsimp only at hct
            by_cases hs : linenoSorted locs = true
            · rw [if_pos hs] at hct
              have hstv :
                  ({ metadata := st.metadata, maybeBytecode := some bytes,
                     maybeSourceMap := some (⟨locs, none, lines⟩ : GeneratedSourceMap),
                     breakpointSites := st.breakpointSites,
                     stepModeCounters := st.stepModeCounters,
                     enterAndLeaveFrameTrapsCounter := st.enterAndLeaveFrameTrapsCounter,
                     traps := st.traps } : DebugState) = stc :=
                congrArg Prod.snd (Option.some.inj hct)
              unfold ensureSourceMap
              rw [if_pos (by subst hstv; rfl)]
            · rw [if_neg hs] at hct
              exact Option.noConfusion hct

/-- C7 witness: `stMapL` is reachable from the fresh state `stInitL` by one
`createText` step; the invariant and idempotence hold there. -/
theorem sourceMap_only_if_debugging_witness :
    (stMapL.maybeBytecode.isSome = true ∧
      stMapL.metadata.debugEnabled = true) ∧
    ensureSourceMap renderL stMapL = some (true, stMapL) := by
  have h := sourceMap_only_if_debugging_and_ensure_idempotent renderL mdW
    (some [0]) stInitL stMapL rfl (fun _ => rfl)
    (Relation.ReflTransGen.single (DebugStep.createText (some "") stMapL rfl))
  exact ⟨h.1 rfl, h.2.1 (Or.inl rfl)⟩

/-- C9: `hasBreakpointTrapAtOffset(offset)` returns true iff debugging is
enabled for the module and some call site of kind `Breakpoint` has its
recorded bytecode position (`lineOrBytecode`), not its return-address
offset, equal to `offset`; in particular it is false for every offset when
debugging is disabled. -/
theorem hasBreakpointTrapAtOffset_iff (st : DebugState) (offset : Nat) :
    hasBreakpointTrapAtOffset st offset = true ↔
      st.metadata.debugEnabled = true ∧
        ∃ cs ∈ st.metadata.callSites,
          cs.kind = CallSiteKind.breakpoint ∧ cs.lineOrBytecode = offset := by
  simp only [hasBreakpointTrapAtOffset, slowCallSiteSearchByOffset,
    Bool.and_eq_true, List.find?_isSome, decide_eq_true_eq]
  tauto

/-- C3 (code bug): on the ascending far-jump table `[10, 20]` and trap
offset `20`, `toggleDebugTrap` selects entry 0 (offset 10, at distance 10)
as the trampoline target of the patched call, although entry 1 (offset 20,
at distance 0) is strictly nearer: the scan condition
`offset < farJumpOffsets[i]` stops at index 0 or runs past the end for any
ascending table, so the nearest-neighbor comparison that follows it is
dead code. -/
theorem toggleDebugTrap_selects_non_nearest :
    debugTrapFarJumpIndex [10, 20] 20 = 0 ∧
    (toggleDebugTrap [10, 20] (fun _ => none) 20 true).map (fun t => t 20) =
      some (some 10) ∧
    specOffsetDistance 10 20 = 10 ∧ specOffsetDistance 20 20 = 0 := by
  decide

/-- C8 counterexample: toggling a trap at an offset with no
breakpoint-capable call site is not detected by an assertion:
`toggleBreakpointTrap` takes the early `return` and leaves the state
unchanged. -/
theorem toggleBreakpointTrap_missing_site_not_asserted :
    slowCallSiteSearchByOffset stEmptySites.metadata 5 = none ∧
    toggleBreakpointTrap stEmptySites 5 true = some stEmptySites ∧
    toggleBreakpointTrap stEmptySites 5 true ≠ none := by
  refine ⟨rfl, rfl, ?_⟩
  intro h
  rw [show toggleBreakpointTrap stEmptySites 5 true = some stEmptySites from rfl] at h
  exact Option.noConfusion h

/-- C8 amended: decrementing a step-mode counter that was never incremented
and enabling a trap when the far-jump table is empty are detected by
assertions (modelled as `none`); toggling a trap at an offset with no
breakpoint-capable call site is instead silently ignored (early return,
state unchanged). -/
theorem contract_violation_handling (st : DebugState) (f offset offTrap : Nat)
    (enabled : Bool) (tr : Nat → Option Nat)
    (hnever : smLookup st.stepModeCounters f = none)
    (hdbg : st.metadata.debugEnabled = true)
    (hmiss : slowCallSiteSearchByOffset st.metadata offset = none) :
    decrementStepModeCount st f = none ∧
    toggleDebugTrap [] tr offTrap true = none ∧
    toggleBreakpointTrap st offset enabled = some st := by
  refine ⟨?_, ?_, ?_⟩
  · unfold decrementStepModeCount
    rw [hdbg]
    cases hgc : getFuncCodeRange st.metadata f with
    | none => simp
    | some cr =>
      by_cases hfn : cr.isFunction = false
      · simp [hfn]
      · simp only [Bool.not_eq_false] at hfn
        by_cases hemp : st.stepModeCounters.isEmpty
        · simp [hfn, hemp]
        · simp [hfn, hemp, hnever]
  · by_cases h : offTrap = 0 <;> simp [toggleDebugTrap, h]
  · simp [toggleBreakpointTrap, hdbg, hmiss]

/-- `uint32_t` decrement agrees with `Nat` subtraction below the modulus. -/
theorem sub32_pred {v : Nat} (h1 : 1 ≤ v) (h2 : v < U32) : sub32 v 1 = v - 1 := by
  unfold sub32
  unfold U32 at h2 ⊢
  omega

/-- The patch loop `toggleCallSitesTraps` succeeds when every touched site
has a nonzero return address and (when enabling) a trampoline exists, and
the resulting code has every touched offset set to its `patchedValue` and
every other offset untouched. -/
theorem toggleCallSitesTraps_eq (fjo : List Nat) (pred : CallSite → Bool)
    (enabledOf : Nat → Bool) :
    ∀ (sites : List CallSite) (traps : Nat → Option Nat),
      (∀ cs ∈ sites, pred cs = true → cs.returnAddressOffset ≠ 0) →
      (∀ cs ∈ sites, pred cs = true →
        enabledOf cs.returnAddressOffset = true → fjo ≠ []) →
      ∃ t, toggleCallSitesTraps fjo sites pred enabledOf traps = some t ∧
        ∀ o, t o =
          if sites.any (fun cs => pred cs && decide (cs.returnAddressOffset = o))
          then patchedValue fjo enabledOf o
          else traps o := by
  intro sites
  induction sites with
  | nil =>
    intro traps _ _
    exact ⟨traps, rfl, fun o => by simp⟩
  | cons cs rest ih =>
    intro traps hnz hfj
    by_cases hp : pred cs = true
    · have hoff : cs.returnAddressOffset ≠ 0 := hnz cs (by simp) hp
      have hstep : ∃ t1,
          toggleDebugTrap fjo traps cs.returnAddressOffset
            (enabledOf cs.returnAddressOffset) = some t1 ∧
          ∀ o, t1 o = if o = cs.returnAddressOffset
            then patchedValue fjo enabledOf cs.returnAddressOffset
            else traps o := by
        by_cases he : enabledOf cs.returnAddressOffset = true
        · have hne : fjo.isEmpty = false := by
            cases hf : fjo with
            | nil => exact absurd rfl (hf ▸ hfj cs (by simp) hp he)
            | cons a l => rfl
          refine ⟨fun o => if o = cs.returnAddressOffset
              then some (farJumpTarget fjo cs.returnAddressOffset)
              else traps o, ?_, ?_⟩
          · unfold toggleDebugTrap
            rw [if_neg hoff, if_pos he, if_neg (by rw [hne]; simp)]
            rfl
          · intro o
            by_cases ho : o = cs.returnAddressOffset <;>
              simp [ho, patchedValue, he]
        · have he' : enabledOf cs.returnAddressOffset = false :=
            Bool.not_eq_true _ ▸ he
          refine ⟨fun o => if o = cs.returnAddressOffset then none else traps o,
            ?_, ?_⟩
          · unfold toggleDebugTrap
            rw [if_neg hoff, if_neg (by rw [he']; simp)]
          · intro o
            by_cases ho : o = cs.returnAddressOffset <;>
              simp [ho, patchedValue, he']
      obtain ⟨t1, ht1, ht1eq⟩ := hstep
      obtain ⟨t, ht, hteq⟩ := ih t1
        (fun c hc hpc => hnz c (List.mem_cons_of_mem cs hc) hpc)
        (fun c hc hpc hec => hfj c (List.mem_cons_of_mem cs hc) hpc hec)
      refine ⟨t, ?_, ?_⟩
      · unfold toggleCallSitesTraps
        rw [if_pos hp, ht1]
        exact ht
      · intro o
        rw [hteq o, ht1eq o]
        by_cases hro : rest.any
            (fun c => pred c && decide (c.returnAddressOffset = o)) = true
        · rw [if_pos hro, if_pos (by simp [List.any_cons, hro])]
        · rw [if_neg hro]
          by_cases ho : o = cs.returnAddressOffset
          · subst ho
            rw [if_pos rfl, if_pos (by simp [List.any_cons, hp])]
          · rw [if_neg ho,
              if_neg (by
                simp only [List.any_cons, Bool.or_eq_true, Bool.and_eq_true,
                  decide_eq_true_eq]
                rintro (⟨-, h2⟩ | h2)
                · exact ho h2.symm
                · exact hro (by simpa using h2))]
    · have hp' : pred cs = false := Bool.not_eq_true _ ▸ hp
      obtain ⟨t, ht, hteq⟩ := ih traps
        (fun c hc hpc => hnz c (List.mem_cons_of_mem cs hc) hpc)
        (fun c hc hpc hec => hfj c (List.mem_cons_of_mem cs hc) hpc hec)
      refine ⟨t, ?_, ?_⟩
      · unfold toggleCallSitesTraps
        rw [if_neg (by rw [hp']; simp)]
        exact ht
      · intro o
        rw [hteq o]
        have : (cs :: rest).any (fun c => pred c && decide (c.returnAddressOffset = o)) =
            rest.any (fun c => pred c && decide (c.returnAddressOffset = o)) := by
          simp [List.any_cons, hp']
        rw [this]

/-- Looking up the key just stored at the head of the counter map. -/
theorem smLookup_cons_self (orig : List (Nat × Nat)) (k v : Nat) :
    smLookup ((k, v) :: orig) k = some v := by
  unfold smLookup
  simp

/-- A key that `smLookup` misses is hit by no entry. -/
theorem smLookup_none_keys {m : List (Nat × Nat)} {f : Nat}
    (h : smLookup m f = none) : ∀ e ∈ m, e.1 ≠ f := by
  unfold smLookup at h
  intro e he
  cases hf : m.find? (fun e => decide (e.1 = f)) with
  | none =>
    rw [List.find?_eq_none] at hf
    simpa using hf e he
  | some p => rw [hf] at h; exact Option.noConfusion h

/-- Bumping the counter at the head of the map, the tail being `f`-free. -/
theorem smBump_cons (orig : List (Nat × Nat)) (f v : Nat)
    (horig : ∀ e ∈ orig, e.1 ≠ f) :
    smBump ((f, v) :: orig) f = (f, (v + 1) % U32) :: orig := by
  unfold smBump
  rw [List.map_cons, if_pos rfl]
  congr 1
  have : ∀ e ∈ orig, (fun e => if e.1 = f then (e.1, (e.2 + 1) % U32) else e) e = id e := by
    intro e he
    simp only [id]
    rw [if_neg (horig e he)]
  rw [List.map_congr_left this, List.map_id]

/-- Setting the counter at the head of the map, the tail being `f`-free. -/
theorem smSet_cons (orig : List (Nat × Nat)) (f v w : Nat)
    (horig : ∀ e ∈ orig, e.1 ≠ f) :
    smSet ((f, v) :: orig) f w = (f, w) :: orig := by
  unfold smSet
  rw [List.map_cons, if_pos rfl]
  congr 1
  have : ∀ e ∈ orig, (fun e => if e.1 = f then (e.1, w) else e) e = id e := by
    intro e he
    simp only [id]
    rw [if_neg (horig e he)]
  rw [List.map_congr_left this, List.map_id]

/-- Removing the head entry of the map, the tail being `f`-free. -/
theorem smRemove_cons (orig : List (Nat × Nat)) (f v : Nat)
    (horig : ∀ e ∈ orig, e.1 ≠ f) :
    smRemove ((f, v) :: orig) f = orig := by
  unfold smRemove
  rw [List.filter_cons]
  rw [if_neg (by simp)]
  exact List.filter_eq_self.mpr (fun e he => by simpa using horig e he)

/-- The first `incrementStepModeCount` for a function: the counter entry is
created at 1 and every in-range breakpoint call site's trap is enabled. -/
theorem incrementStepModeCount_first (st : DebugState) (f : Nat) (cr : CodeRange)
    (hdbg : st.metadata.debugEnabled = true)
    (hcr : getFuncCodeRange st.metadata f = some cr)
    (hfn : cr.isFunction = true)
    (hnof : smLookup st.stepModeCounters f = none)
    (hnz : ∀ c ∈ st.metadata.callSites, inRangeBreakpoint cr c = true →
      c.returnAddressOffset ≠ 0)
    (hfj : ∀ c ∈ st.metadata.callSites, inRangeBreakpoint cr c = true →
      st.metadata.debugTrapFarJumpOffsets ≠ []) :
    ∃ t, incrementStepModeCount st f =
        some { st with stepModeCounters := (f, 1) :: st.stepModeCounters,
                       traps := t } ∧
      ∀ o, t o =
        if st.metadata.callSites.any
            (fun c => inRangeBreakpoint cr c && decide (c.returnAddressOffset = o))
        then some (farJumpTarget st.metadata.debugTrapFarJumpOffsets o)
        else st.traps o := by
  obtain ⟨t, ht, hteq⟩ := toggleCallSitesTraps_eq
    st.metadata.debugTrapFarJumpOffsets (inRangeBreakpoint cr)
    (fun _ => true) st.metadata.callSites st.traps hnz
    (fun c hc hpc _ => hfj c hc hpc)
  refine ⟨t, ?_, ?_⟩
  · unfold incrementStepModeCount
    rw [if_neg (by rw [hdbg]; simp), hcr]
    dsimp only
    rw [if_neg (by rw [hfn]; simp), hnof]
    dsimp only
    rw [ht]
    rfl
  · intro o
    rw [hteq o]
    by_cases hro : st.metadata.callSites.any
        (fun c => inRangeBreakpoint cr c && decide (c.returnAddressOffset = o)) = true
    · rw [if_pos hro, if_pos hro]
      unfold patchedValue
      rw [if_pos rfl]
    · rw [if_neg hro, if_neg hro]

/-- A later `incrementStepModeCount`: only the counter is bumped. -/
theorem incrementStepModeCount_bump (st : DebugState) (f v : Nat) (cr : CodeRange)
    (hdbg : st.metadata.debugEnabled = true)
    (hcr : getFuncCodeRange st.metadata f = some cr)
    (hfn : cr.isFunction = true)
    (hv : smLookup st.stepModeCounters f = some v) (hv0 : v ≠ 0) :
    incrementStepModeCount st f =
      some { st with stepModeCounters := smBump st.stepModeCounters f } := by
  unfold incrementStepModeCount
  rw [if_neg (by rw [hdbg]; simp), hcr]
  dsimp only
  rw [if_neg (by rw [hfn]; simp), hv]
  dsimp only
  rw [if_neg hv0]

/-- A `decrementStepModeCount` that leaves the counter positive: only the
counter changes. -/
theorem decrementStepModeCount_keep (st : DebugState) (f v : Nat) (cr : CodeRange)
    (hdbg : st.metadata.debugEnabled = true)
    (hcr : getFuncCodeRange st.metadata f = some cr)
    (hfn : cr.isFunction = true)
    (hv : smLookup st.stepModeCounters f = some v)
    (h2 : 2 ≤ v) (hvU : v < U32) :
    decrementStepModeCount st f =
      some { st with stepModeCounters := smSet st.stepModeCounters f (v - 1) } := by
  have hne : st.stepModeCounters.isEmpty = false := by
    cases hl : st.stepModeCounters with
    | nil => rw [hl] at hv; exact Option.noConfusion hv
    | cons a l => rfl
  unfold decrementStepModeCount
  rw [if_neg (by rw [hdbg]; simp), hcr]
  dsimp only
  rw [if_neg (by rw [hfn]; simp), if_neg (by rw [hne]; simp), hv]
  dsimp only
  rw [sub32_pred (by omega) hvU]
  rw [if_pos (by omega)]

/-- The last `decrementStepModeCount`: the counter entry is removed and
every in-range breakpoint call site's trap is re-derived as enabled iff
`breakpointSites_` contains its return-address offset. -/
theorem decrementStepModeCount_last (st : DebugState) (f : Nat) (cr : CodeRange)
    (hdbg : st.metadata.debugEnabled = true)
    (hcr : getFuncCodeRange st.metadata f = some cr)
    (hfn : cr.isFunction = true)
    (hv : smLookup st.stepModeCounters f = some 1)
    (hnz : ∀ c ∈ st.metadata.callSites, inRangeBreakpoint cr c = true →
      c.returnAddressOffset ≠ 0)
    (hfj : ∀ c ∈ st.metadata.callSites, inRangeBreakpoint cr c = true →
      st.metadata.debugTrapFarJumpOffsets ≠ []) :
    ∃ t, decrementStepModeCount st f =
        some { st with stepModeCounters := smRemove st.stepModeCounters f,
                       traps := t } ∧
      ∀ o, t o =
        if st.metadata.callSites.any
            (fun c => inRangeBreakpoint cr c && decide (c.returnAddressOffset = o))
        then patchedValue st.metadata.debugTrapFarJumpOffsets
          (fun o => st.breakpointSites.contains o) o
        else st.traps o := by
  have hne : st.stepModeCounters.isEmpty = false := by
    cases hl : st.stepModeCounters with
    | nil => rw [hl] at hv; exact Option.noConfusion hv
    | cons a l => rfl
  obtain ⟨t, ht, hteq⟩ := toggleCallSitesTraps_eq
    st.metadata.debugTrapFarJumpOffsets (inRangeBreakpoint cr)
    (fun o => st.breakpointSites.contains o) st.metadata.callSites st.traps hnz
    (fun c hc hpc _ => hfj c hc hpc)
  refine ⟨t, ?_, hteq⟩
  unfold decrementStepModeCount
  rw [if_neg (by rw [hdbg]; simp), hcr]
  dsimp only
  rw [if_neg (by rw [hfn]; simp), if_neg (by rw [hne]; simp), hv]
  dsimp only
  have h11 : sub32 1 1 = 0 := by unfold sub32 U32; omega
  rw [h11]
  rw [if_neg (by simp)]
  rw [ht]
  rfl

/-- `BinarySearchIf` returns `(false, high)` when the comparator is
positive on the whole range. -/
theorem binarySearchIf_all_pos (f : Nat → Int) :
    ∀ (fuel low high : Nat), high - low ≤ fuel → low ≤ high →
      (∀ p, low ≤ p → p < high → 0 < f p) →
      binarySearchIf f low high = (false, high) := by
  intro fuel
  induction fuel with
  | zero =>
    intro low high hle hlow hf
    rw [binarySearchIf]
    have hnl : ¬ low < high := by omega
    rw [dif_neg hnl]
    have heq : low = high := by omega
    rw [heq]
  | succ n ih =>
    intro low high hle hlow hf
    rw [binarySearchIf]
    by_cases hlh : low < high
    · rw [dif_pos hlh]
      have hm2 : low + (high - low) / 2 < high := by omega
      have hfm := hf _ (Nat.le_add_right _ _) hm2
      rw [if_neg (by omega), if_neg (by omega)]
      exact ih (low + (high - low) / 2 + 1) high (by omega) (by omega)
        (fun p hp1 hp2 => hf p (by omega) hp2)
    · rw [dif_neg hlh]
      have heq : low = high := by omega
      rw [heq]

/-- The offset-sorted index has the same length as the `ExprLoc` vector. -/
theorem buildSortedOffsetIndices_length (E : List ExprLoc) :
    (buildSortedOffsetIndices E).length = E.length := by
  unfold buildSortedOffsetIndices
  rw [List.length_mergeSort, List.length_range]

/-- The offset-sorted index holds exactly the indices of the vector. -/
theorem buildSortedOffsetIndices_mem {E : List ExprLoc} {j : Nat} :
    j ∈ buildSortedOffsetIndices E ↔ j < E.length := by
  unfold buildSortedOffsetIndices
  rw [List.mem_mergeSort, List.mem_range]

/-- The element at an in-bounds position of a list is a member. -/
theorem getD_mem_of_lt (l : List Nat) (p : Nat) (hp : p < l.length) :
    l.getD p 0 ∈ l := by
  rw [List.getD_eq_getElem?_getD, List.getElem?_eq_getElem hp, Option.getD_some]
  exact List.getElem_mem hp

/-- Entries of the offset-sorted index are in bounds for the vector. -/
theorem buildSortedOffsetIndices_getD_lt (E : List ExprLoc) (p : Nat)
    (hp : p < E.length) : (buildSortedOffsetIndices E).getD p 0 < E.length := by
  have hlen : p < (buildSortedOffsetIndices E).length := by
    rw [buildSortedOffsetIndices_length]; exact hp
  exact buildSortedOffsetIndices_mem.mp (getD_mem_of_lt _ p hlen)

/-- The offset-sorted index is sorted by the offsets it dereferences. -/
theorem buildSortedOffsetIndices_sorted (E : List ExprLoc) :
    List.Pairwise (fun i j => exprlocOffsetLe E i j = true)
      (buildSortedOffsetIndices E) := by
  unfold buildSortedOffsetIndices
  exact List.sorted_mergeSort
    (fun a b c hab hbc => by
      unfold exprlocOffsetLe at hab hbc ⊢
      rw [decide_eq_true_eq] at hab hbc ⊢
      omega)
    (fun a b => by
      unfold exprlocOffsetLe
      rw [Bool.or_eq_true, decide_eq_true_eq, decide_eq_true_eq]
      exact Nat.le_total _ _)
    (List.range E.length)

/-- The last position of a nonempty list is a member. -/
theorem getD_last_mem (l : List Nat) (h : l ≠ []) :
    l.getD (l.length - 1) 0 ∈ l := by
  have hlt : l.length - 1 < l.length := by
    cases l with
    | nil => exact absurd rfl h
    | cons a rest => simp
  exact getD_mem_of_lt l _ hlt

/-- In a `Pairwise`-sorted list every member relates to the last element. -/
theorem pairwise_rel_getD_last (R : Nat → Nat → Prop) (hrefl : ∀ a, R a a)
    (l : List Nat) (hp : List.Pairwise R l) :
    ∀ j ∈ l, R j (l.getD (l.length - 1) 0) := by
  induction l with
  | nil => intro j hj; exact absurd hj (List.not_mem_nil j)
  | cons a rest ih =>
    intro j hj
    rw [List.pairwise_cons] at hp
    cases rest with
    | nil =>
      have hja : j = a := by simpa using hj
      subst hja
      exact hrefl j
    | cons b r2 =>
      have hlast : ((a :: b :: r2).getD ((a :: b :: r2).length - 1) 0) =
          ((b :: r2).getD ((b :: r2).length - 1) 0) := rfl
      rw [hlast]
      rcases List.mem_cons.mp hj with h | h
      · subst h
        exact hp.1 _ (getD_last_mem (b :: r2) (by simp))
      · exact ih hp.2 j h

/-- C4: on a map whose offset-sorted index has been (or can be) built,
`searchLineByOffset` always returns an index within the bounds of the
`ExprLoc` vector, and for an offset strictly greater than every recorded
offset it returns the last entry in offset order (clamp), whose offset is
maximal. -/
theorem searchLineByOffset_clamp_and_bounds (m : GeneratedSourceMap)
    (offset : Nat) (hne : m.exprlocs ≠ [])
    (hidx : m.sortedByOffsetExprLocIndices = none ∨
      m.sortedByOffsetExprLocIndices = some (buildSortedOffsetIndices m.exprlocs)) :
    ∃ m' idx, searchLineByOffset m offset = some (m', idx) ∧
      m'.exprlocs = m.exprlocs ∧
      idx < m.exprlocs.length ∧
      ((∀ e ∈ m.exprlocs, e.offset < offset) →
        idx = (buildSortedOffsetIndices m.exprlocs).getD
          (m.exprlocs.length - 1) 0 ∧
        ∀ e ∈ m.exprlocs, e.offset ≤ (m.exprlocs.getD idx default).offset) := by
  have hnemp : m.exprlocs.isEmpty = false := by
    cases hE : m.exprlocs with
    | nil => exact absurd hE hne
    | cons a rest => rfl
  have hcore : ∀ found : Bool × Nat,
      found = binarySearchIf
        (fun pos => offsetLookupCmp m.exprlocs offset
          ((buildSortedOffsetIndices m.exprlocs).getD pos 0)) 0
        m.exprlocs.length →
      ∃ idx,
        (buildSortedOffsetIndices m.exprlocs).getD
          (if m.exprlocs.length ≤ found.2 then m.exprlocs.length - 1
           else found.2) 0 = idx ∧
        idx < m.exprlocs.length ∧
        ((∀ e ∈ m.exprlocs, e.offset < offset) →
          idx = (buildSortedOffsetIndices m.exprlocs).getD
            (m.exprlocs.length - 1) 0 ∧
          ∀ e ∈ m.exprlocs, e.offset ≤ (m.exprlocs.getD idx default).offset) := by
    intro found hfound
    refine ⟨_, rfl, ?_, ?_⟩
    · apply buildSortedOffsetIndices_getD_lt
      have hpos : 0 < m.exprlocs.length := by
        cases hE : m.exprlocs with
        | nil => exact absurd hE hne
        | cons a rest => simp
      by_cases hcl : m.exprlocs.length ≤ found.2
      · rw [if_pos hcl]; omega
      · rw [if_neg hcl]; omega
    · intro hof
      have hbs : binarySearchIf
          (fun pos => offsetLookupCmp m.exprlocs offset
            ((buildSortedOffsetIndices m.exprlocs).getD pos 0)) 0
          m.exprlocs.length = (false, m.exprlocs.length) := by
        apply binarySearchIf_all_pos _ m.exprlocs.length _ _ (le_refl _)
          (Nat.zero_le _)
        intro p hp0 hplen
        have hjlt := buildSortedOffsetIndices_getD_lt m.exprlocs p hplen
        have hmem : m.exprlocs.getD
            ((buildSortedOffsetIndices m.exprlocs).getD p 0) default ∈
            m.exprlocs := by
          rw [List.getD_eq_getElem?_getD, List.getElem?_eq_getElem hjlt,
            Option.getD_some]
          exact List.getElem_mem hjlt
        have hlt := hof _ hmem
        unfold offsetLookupCmp
        rw [if_neg (by omega), if_neg (by omega)]
        omega
      rw [hfound, hbs]
      constructor
      · rw [if_pos (le_refl _)]
      · rw [if_pos (le_refl _)]
        intro e he
        obtain ⟨j, hjlt, hje⟩ := List.mem_iff_getElem.mp he
        have hjmem : j ∈ buildSortedOffsetIndices m.exprlocs :=
          buildSortedOffsetIndices_mem.mpr hjlt
        have hrel := pairwise_rel_getD_last
          (fun i j => exprlocOffsetLe m.exprlocs i j = true)
          (fun a => by simp [exprlocOffsetLe])
          (buildSortedOffsetIndices m.exprlocs)
          (buildSortedOffsetIndices_sorted m.exprlocs) j hjmem
        simp only [exprlocOffsetLe, decide_eq_true_eq] at hrel
        have hEj : m.exprlocs.getD j default = e := by
          rw [List.getD_eq_getElem?_getD, List.getElem?_eq_getElem hjlt,
            Option.getD_some, hje]
        rw [hEj] at hrel
        rw [buildSortedOffsetIndices_length] at hrel
        exact hrel
  rcases hidx with h | h
  · obtain ⟨idx, hidxeq, hlt, hclamp⟩ := hcore _ rfl
    refine ⟨{ m with sortedByOffsetExprLocIndices := some (buildSortedOffsetIndices m.exprlocs) }, idx, ?_, rfl, hlt, hclamp⟩
    unfold searchLineByOffset
    rw [if_neg (by rw [hnemp]; simp), h]
    dsimp only
    rw [hidxeq]
  · obtain ⟨idx, hidxeq, hlt, hclamp⟩ := hcore _ rfl
    refine ⟨{ m with sortedByOffsetExprLocIndices := some (buildSortedOffsetIndices m.exprlocs) }, idx, ?_, rfl, hlt, hclamp⟩
    unfold searchLineByOffset
    rw [if_neg (by rw [hnemp]; simp), h]
    dsimp only
    rw [hidxeq]

/-- C4 witness: on `mapW` (offsets 30, 10, 20) with query offset 40, the
index of the last entry in offset order (position 0, offset 30) is
returned, in bounds. -/
theorem searchLineByOffset_clamp_witness :
    (searchLineByOffset mapW 40).map (fun r => r.2) = some 0 ∧
    (0 : Nat) < mapW.exprlocs.length := by
  obtain ⟨m', idx, hs, -, hlt, hclamp⟩ :=
    searchLineByOffset_clamp_and_bounds mapW 40 (by decide) (Or.inl rfl)
  obtain ⟨hidx, -⟩ := hclamp (by decide)
  rw [hs]
  refine ⟨?_, by decide⟩
  show some idx = some 0
  rw [hidx]
  simp [buildSortedOffsetIndices, mapW, List.mergeSort, exprlocOffsetLe, List.range_succ]

/-- A hit of `BinarySearchIf` satisfies the comparator and lies in range. -/
theorem binarySearchIf_found (f : Nat → Int) :
    ∀ (fuel low high : Nat) (b : Bool) (m2 : Nat), high - low ≤ fuel →
      binarySearchIf f low high = (b, m2) → b = true →
      f m2 = 0 ∧ low ≤ m2 ∧ m2 < high := by
  intro fuel
  induction fuel with
  | zero =>
    intro low high b m2 hle heq hb
    rw [binarySearchIf] at heq
    have hnl : ¬ low < high := by omega
    rw [dif_neg hnl] at heq
    injection heq with h1 h2
    subst h1
    exact Bool.noConfusion hb
  | succ n ih =>
    intro low high b m2 hle heq hb
    rw [binarySearchIf] at heq
    by_cases hlh : low < high
    · rw [dif_pos hlh] at heq
      by_cases h0 : f (low + (high - low) / 2) = 0
      · rw [if_pos h0] at heq
        injection heq with h1 h2
        subst h2
        exact ⟨h0, Nat.le_add_right _ _, by omega⟩
      · rw [if_neg h0] at heq
        by_cases hneg : f (low + (high - low) / 2) < 0
        · rw [if_pos hneg] at heq
          obtain ⟨hf, hl, hh⟩ := ih low (low + (high - low) / 2) b m2
            (by omega) heq hb
          exact ⟨hf, hl, by omega⟩
        · rw [if_neg hneg] at heq
          obtain ⟨hf, hl, hh⟩ := ih (low + (high - low) / 2 + 1) high b m2
            (by omega) heq hb
          exact ⟨hf, by omega, hh⟩
    · rw [dif_neg hlh] at heq
      injection heq with h1 h2
      subst h1
      exact Bool.noConfusion hb

/-- `BinarySearchIf` hits whenever the comparator has the three-zone shape
`1 … 1 0 … 0 (-1) … (-1)` with a nonempty zero zone. -/
theorem binarySearchIf_zone (f : Nat → Int) (a b : Nat) (hab : a < b) :
    ∀ (fuel low high : Nat), high - low ≤ fuel → low ≤ a → b ≤ high →
      (∀ p, low ≤ p → p < a → f p = 1) →
      (∀ p, a ≤ p → p < b → f p = 0) →
      (∀ p, b ≤ p → p < high → f p = -1) →
      ∃ m2, binarySearchIf f low high = (true, m2) := by
  intro fuel
  induction fuel with
  | zero =>
    intro low high hle hla hbh h1 h0 hm1
    exfalso
    omega
  | succ n ih =>
    intro low high hle hla hbh h1 h0 hm1
    have hlh : low < high := by omega
    rw [binarySearchIf, dif_pos hlh]
    by_cases h0m : f (low + (high - low) / 2) = 0
    · rw [if_pos h0m]
      exact ⟨_, rfl⟩
    · rw [if_neg h0m]
      by_cases hnegm : f (low + (high - low) / 2) < 0
      · rw [if_pos hnegm]
        have hmidb : b ≤ low + (high - low) / 2 := by
          by_contra hcon
          push_neg at hcon
          by_cases hma : low + (high - low) / 2 < a
          · have := h1 (low + (high - low) / 2) (by omega) hma
            omega
          · have := h0 (low + (high - low) / 2) (by omega) (by omega)
            omega
        have hfuel : low + (high - low) / 2 - low ≤ n := by omega
        have hmh : low + (high - low) / 2 ≤ high := by omega
        exact ih low (low + (high - low) / 2) hfuel hla hmidb h1 h0
          (fun p hp1 hp2 => hm1 p hp1 (Nat.lt_of_lt_of_le hp2 hmh))
      · rw [if_neg hnegm]
        have hmida : low + (high - low) / 2 < a := by
          by_contra hcon
          push_neg at hcon
          by_cases hmb : low + (high - low) / 2 < b
          · have := h0 (low + (high - low) / 2) (by omega) hmb
            omega
          · have := hm1 (low + (high - low) / 2) (by omega) (by omega)
            omega
        have hfuel : high - (low + (high - low) / 2 + 1) ≤ n := by omega
        have hla2 : low + (high - low) / 2 + 1 ≤ a := by omega
        have hlm : low ≤ low + (high - low) / 2 + 1 := by omega
        exact ih (low + (high - low) / 2 + 1) high hfuel hla2 hbh
          (fun p hp1 hp2 => h1 p (Nat.le_trans hlm hp1) hp2) h0 hm1

/-- Generic version of `getD_mem_of_lt`. -/
theorem getD_mem {α : Type} (l : List α) (d : α) (p : Nat) (hp : p < l.length) :
    l.getD p d ∈ l := by
  rw [List.getD_eq_getElem?_getD, List.getElem?_eq_getElem hp, Option.getD_some]
  exact List.getElem_mem hp

/-- The rewind loop of `getLineOffsets` stops exactly at the first index of
a run of entries on line `L`. -/
theorem rewindToLineStart_eq (E : List ExprLoc) (L : Nat) (a : Nat)
    (ha : a = 0 ∨ (a - 1 < E.length ∧ (E.getD (a - 1) default).lineno ≠ L)) :
    ∀ d, (∀ i, a ≤ i → i < a + d → (E.getD i default).lineno = L) →
      rewindToLineStart E L (a + d) = a := by
  intro d
  induction d with
  | zero =>
    intro hrun
    rcases ha with h | h
    · subst h
      rfl
    · cases hA : a with
      | zero => rfl
      | succ a' =>
        show rewindToLineStart E L (a' + 1) = a' + 1
        unfold rewindToLineStart
        rw [if_neg (by have h2 := h.2; rw [hA, Nat.add_sub_cancel] at h2; exact h2)]
  | succ n ih =>
    intro hrun
    have hstep : (E.getD (a + n) default).lineno = L :=
      hrun (a + n) (by omega) (by omega)
    show rewindToLineStart E L (a + n + 1) = a
    unfold rewindToLineStart
    rw [if_pos hstep]
    exact ih (fun i hi1 hi2 => hrun i hi1 (by omega))

/-- `takeWhile` runs through a prefix that satisfies the predicate. -/
theorem takeWhile_all_append {α : Type} (p : α → Bool) (B C : List α)
    (hB : ∀ x ∈ B, p x = true) :
    (B ++ C).takeWhile p = B ++ C.takeWhile p := by
  induction B with
  | nil => rfl
  | cons x rest ih =>
    rw [List.cons_append, List.takeWhile_cons, if_pos (hB x (by simp)),
      ih (fun y hy => hB y (List.mem_cons_of_mem x hy)), List.cons_append]

/-- `takeWhile` of a list on which the predicate always fails is empty. -/
theorem takeWhile_none {α : Type} (p : α → Bool) (C : List α)
    (hC : ∀ x ∈ C, p x = false) : C.takeWhile p = [] := by
  cases C with
  | nil => rfl
  | cons x rest =>
    rw [List.takeWhile_cons, if_neg (by rw [hC x (by simp)]; simp)]

/-- After dropping the entries strictly below line `L` of a line-sorted
vector, every remaining entry is at line `L` or above. -/
theorem dropWhile_rest_ge (L : Nat) (E : List ExprLoc)
    (hs : List.Pairwise (fun x y : ExprLoc => x.lineno ≤ y.lineno) E) :
    ∀ e ∈ E.dropWhile (fun e => decide (e.lineno < L)), L ≤ e.lineno := by
  induction E with
  | nil => intro e he; simp at he
  | cons x rest ih =>
    rw [List.pairwise_cons] at hs
    intro e he
    rw [List.dropWhile_cons] at he
    by_cases hx : x.lineno < L
    · rw [if_pos (by simpa using hx)] at he
      exact ih hs.2 e he
    · rw [if_neg (by simpa using hx)] at he
      rcases List.mem_cons.mp he with h | h
      · subst h
        omega
      · have := hs.1 e h
        omega

/-- After additionally dropping the line-`L` run, every remaining entry is
strictly above line `L`. -/
theorem dropWhile_run_gt (L : Nat) (R : List ExprLoc)
    (hs : List.Pairwise (fun x y : ExprLoc => x.lineno ≤ y.lineno) R)
    (hge : ∀ e ∈ R, L ≤ e.lineno) :
    ∀ e ∈ R.dropWhile (fun e => decide (e.lineno = L)), L < e.lineno := by
  induction R with
  | nil => intro e he; simp at he
  | cons x rest ih =>
    rw [List.pairwise_cons] at hs
    intro e he
    rw [List.dropWhile_cons] at he
    by_cases hx : x.lineno = L
    · rw [if_pos (by simpa using hx)] at he
      exact ih hs.2 (fun e' he' => hge e' (List.mem_cons_of_mem x he')) e he
    · rw [if_neg (by simpa using hx)] at he
      rcases List.mem_cons.mp he with h | h
      · subst h
        have := hge e (by simp)
        omega
      · have h1 := hge x (by simp)
        have h2 := hs.1 e h
        omega

/-- The line comparator over `A ++ (B ++ C)` with `A` below, `B` at and `C`
above line `L` has the three-zone shape `1 ... 1 0 ... 0 (-1) ... (-1)`. -/
theorem lineZone_shape (E A B C : List ExprLoc) (L : Nat)
    (hE : E = A ++ (B ++ C))
    (hA : ∀ e ∈ A, e.lineno < L)
    (hB : ∀ e ∈ B, e.lineno = L)
    (hC : ∀ e ∈ C, L < e.lineno) :
    (∀ p, p < A.length → lineLookupCmp L (E.getD p default) = 1) ∧
    (∀ p, A.length ≤ p → p < A.length + B.length →
      lineLookupCmp L (E.getD p default) = 0) ∧
    (∀ p, A.length + B.length ≤ p → p < E.length →
      lineLookupCmp L (E.getD p default) = -1) := by
  have hlen : E.length = A.length + (B.length + C.length) := by
    rw [hE]
    simp
  refine ⟨?_, ?_, ?_⟩
  · intro p hp
    have hmem : E.getD p default ∈ A := by
      rw [hE, List.getD_append _ _ _ _ hp]
      exact getD_mem A default p hp
    have := hA _ hmem
    unfold lineLookupCmp
    rw [if_neg (by omega), if_neg (by omega)]
  · intro p hp1 hp2
    have hmem : E.getD p default ∈ B := by
      rw [hE, List.getD_append_right _ _ _ _ hp1,
        List.getD_append _ _ _ _ (by omega)]
      exact getD_mem B default _ (by omega)
    have := hB _ hmem
    unfold lineLookupCmp
    rw [if_pos (by omega)]
  · intro p hp1 hp2
    have hmem : E.getD p default ∈ C := by
      rw [hE, List.getD_append_right _ _ _ _ (by omega),
        List.getD_append_right _ _ _ _ (by omega)]
      exact getD_mem C default _ (by omega)
    have := hC _ hmem
    unfold lineLookupCmp
    rw [if_neg (by omega), if_pos (by omega)]

/-- With a nonempty line-`L` run the binary search of `getLineOffsets`
hits, inside the run. -/
theorem lineSearch_hit (E A B C : List ExprLoc) (L : Nat)
    (hE : E = A ++ (B ++ C))
    (hA : ∀ e ∈ A, e.lineno < L)
    (hB : ∀ e ∈ B, e.lineno = L)
    (hC : ∀ e ∈ C, L < e.lineno)
    (hBne : B ≠ []) :
    ∃ m2, binarySearchIf
        (fun pos => lineLookupCmp L (E.getD pos default)) 0 E.length =
        (true, m2) ∧ A.length ≤ m2 ∧ m2 < A.length + B.length := by
  obtain ⟨h1, h0, hm1⟩ := lineZone_shape E A B C L hE hA hB hC
  have hlen : E.length = A.length + (B.length + C.length) := by
    rw [hE]
    simp
  have hBpos : 0 < B.length := List.length_pos.mpr hBne
  obtain ⟨m2, hbs⟩ := binarySearchIf_zone
    (fun pos => lineLookupCmp L (E.getD pos default))
    A.length (A.length + B.length) (by omega) E.length 0 E.length
    (by omega) (by omega) (by omega)
    (fun p _ hp => h1 p hp) h0 hm1
  obtain ⟨hf, h0m, hmlt⟩ := binarySearchIf_found
    (fun pos => lineLookupCmp L (E.getD pos default))
    E.length 0 E.length true m2 (by omega) hbs rfl
  have hf2 : lineLookupCmp L (E.getD m2 default) = 0 := hf
  refine ⟨m2, hbs, ?_, ?_⟩
  · by_contra hc
    push_neg at hc
    have := h1 m2 hc
    omega
  · by_contra hc
    push_neg at hc
    have := hm1 m2 hc hmlt
    omega

/-- With no entry on line `L` the binary search of `getLineOffsets`
misses. -/
theorem lineSearch_miss (E A C : List ExprLoc) (L : Nat)
    (hE : E = A ++ C)
    (hA : ∀ e ∈ A, e.lineno < L)
    (hC : ∀ e ∈ C, L < e.lineno) :
    (binarySearchIf
      (fun pos => lineLookupCmp L (E.getD pos default)) 0 E.length).1 =
      false := by
  obtain ⟨h1, h0, hm1⟩ := lineZone_shape E A [] C L (by simpa using hE) hA
    (by simp) hC
  cases hbs : binarySearchIf
      (fun pos => lineLookupCmp L (E.getD pos default)) 0 E.length with
  | mk b m2 =>
    cases b with
    | false => rfl
    | true =>
      exfalso
      obtain ⟨hf, h0m, hmlt⟩ := binarySearchIf_found
        (fun pos => lineLookupCmp L (E.getD pos default))
        E.length 0 E.length true m2 (by omega) hbs rfl
      have hf2 : lineLookupCmp L (E.getD m2 default) = 0 := hf
      by_cases hc : m2 < A.length
      · have := h1 m2 hc
        omega
      · have := hm1 m2 (by simp only [List.length_nil, Nat.add_zero]; omega)
          hmlt
        omega

/-- The rewind loop stops at the start of the line-`L` run. -/
theorem lineRewind (E A B C : List ExprLoc) (L : Nat) (m2 : Nat)
    (hE : E = A ++ (B ++ C))
    (hA : ∀ e ∈ A, e.lineno < L)
    (hB : ∀ e ∈ B, e.lineno = L)
    (hm2a : A.length ≤ m2) (hm2b : m2 < A.length + B.length) :
    rewindToLineStart E L m2 = A.length := by
  have hlen : E.length = A.length + (B.length + C.length) := by
    rw [hE]
    simp
  have ha : A.length = 0 ∨
      (A.length - 1 < E.length ∧
        (E.getD (A.length - 1) default).lineno ≠ L) := by
    by_cases hA0 : A.length = 0
    · exact Or.inl hA0
    · refine Or.inr ⟨by omega, ?_⟩
      have hmem : E.getD (A.length - 1) default ∈ A := by
        rw [hE, List.getD_append _ _ _ _ (by omega)]
        exact getD_mem A default _ (by omega)
      have := hA _ hmem
      omega
  have hrun : ∀ i, A.length ≤ i → i < A.length + (m2 - A.length) →
      (E.getD i default).lineno = L := by
    intro i hi1 hi2
    have hmem : E.getD i default ∈ B := by
      rw [hE, List.getD_append_right _ _ _ _ hi1,
        List.getD_append _ _ _ _ (by omega)]
      exact getD_mem B default _ (by omega)
    exact hB _ hmem
  have := rewindToLineStart_eq E L A.length ha (m2 - A.length) hrun
  rwa [Nat.add_sub_cancel' hm2a] at this

/-- The collection loop returns exactly the offsets of the line-`L` run. -/
theorem lineCollect (E A B C : List ExprLoc) (L : Nat)
    (hE : E = A ++ (B ++ C))
    (hB : ∀ e ∈ B, e.lineno = L)
    (hC : ∀ e ∈ C, L < e.lineno) :
    collectLineOffsets E L A.length = B.map (fun e => e.offset) := by
  unfold collectLineOffsets
  rw [hE, List.drop_left A (B ++ C),
    takeWhile_all_append _ B C (fun x hx => by simp [hB x hx]),
    takeWhile_none _ C (fun x hx => by
      have := hC x hx
      simp only [decide_eq_false_iff_not]
      omega),
    List.append_nil]

/-- Filtering for line `L` keeps exactly the middle run. -/
theorem lineFilter (E A B C : List ExprLoc) (L : Nat)
    (hE : E = A ++ (B ++ C))
    (hA : ∀ e ∈ A, e.lineno < L)
    (hB : ∀ e ∈ B, e.lineno = L)
    (hC : ∀ e ∈ C, L < e.lineno) :
    E.filter (fun e => decide (e.lineno = L)) = B := by
  rw [hE, List.filter_append, List.filter_append]
  rw [List.filter_eq_nil_iff.mpr (fun x hx => by
      have := hA x hx
      simp only [decide_eq_true_eq]
      omega),
    List.filter_eq_self.mpr (fun x hx => by simp [hB x hx]),
    List.filter_eq_nil_iff.mpr (fun x hx => by
      have := hC x hx
      simp only [decide_eq_true_eq]
      omega),
    List.nil_append, List.append_nil]

/-- Any line-sorted expression vector splits as the entries below line `L`,
the entries at line `L` (the filter), and the entries above it. -/
theorem lineSplit (E : List ExprLoc) (L : Nat)
    (hline : List.Pairwise (fun x y : ExprLoc => x.lineno ≤ y.lineno) E) :
    ∃ A C, E = A ++ ((E.filter (fun e => decide (e.lineno = L))) ++ C) ∧
      (∀ e ∈ A, e.lineno < L) ∧ (∀ e ∈ C, L < e.lineno) := by
  have hA : ∀ e ∈ E.takeWhile (fun e => decide (e.lineno < L)),
      e.lineno < L := by
    intro e he
    have := List.mem_takeWhile_imp he
    simpa using this
  have hRge := dropWhile_rest_ge L E hline
  have hRpair : List.Pairwise (fun x y : ExprLoc => x.lineno ≤ y.lineno)
      (E.dropWhile (fun e => decide (e.lineno < L))) :=
    hline.sublist (List.dropWhile_sublist _)
  have hB : ∀ e ∈ (E.dropWhile (fun e => decide (e.lineno < L))).takeWhile
      (fun e => decide (e.lineno = L)), e.lineno = L := by
    intro e he
    have := List.mem_takeWhile_imp he
    simpa using this
  have hC := dropWhile_run_gt L (E.dropWhile (fun e => decide (e.lineno < L)))
    hRpair hRge
  have hE0 : E = E.takeWhile (fun e => decide (e.lineno < L)) ++
      ((E.dropWhile (fun e => decide (e.lineno < L))).takeWhile
        (fun e => decide (e.lineno = L)) ++
       (E.dropWhile (fun e => decide (e.lineno < L))).dropWhile
        (fun e => decide (e.lineno = L))) := by
    rw [List.takeWhile_append_dropWhile, List.takeWhile_append_dropWhile]
  have hfilt := lineFilter E
    (E.takeWhile (fun e => decide (e.lineno < L)))
    ((E.dropWhile (fun e => decide (e.lineno < L))).takeWhile
      (fun e => decide (e.lineno = L)))
    ((E.dropWhile (fun e => decide (e.lineno < L))).dropWhile
      (fun e => decide (e.lineno = L))) L hE0 hA hB hC
  refine ⟨E.takeWhile (fun e => decide (e.lineno < L)),
    (E.dropWhile (fun e => decide (e.lineno < L))).dropWhile
      (fun e => decide (e.lineno = L)), ?_, hA, hC⟩
  rw [hfilt]
  exact hE0

/-- Iteration of a fallible operation splits over addition. -/
theorem iterateOp_add (op : DebugState → Option DebugState) (a b : Nat)
    (s : DebugState) :
    iterateOp op (a + b) s = (iterateOp op a s).bind (iterateOp op b) := by
  induction a generalizing s with
  | zero =>
    rw [Nat.zero_add]
    rfl
  | succ n ih =>
    have harith : n + 1 + b = (n + b) + 1 := by omega
    rw [harith]
    show (op s).bind (iterateOp op (n + b)) =
      ((op s).bind (iterateOp op n)).bind (iterateOp op b)
    cases op s with
    | none => rfl
    | some s1 => exact ih s1

/-- Increments after the first only bump the stage counter. -/
theorem iterate_inc_stages (st : DebugState) (f : Nat) (cr : CodeRange)
    (t1 : Nat → Option Nat)
    (hdbg : st.metadata.debugEnabled = true)
    (hcr : getFuncCodeRange st.metadata f = some cr)
    (hfn : cr.isFunction = true)
    (hnof : smLookup st.stepModeCounters f = none) :
    ∀ j k, 1 ≤ k → k + j < U32 →
      iterateOp (fun s => incrementStepModeCount s f) j (smStage st f k t1) =
        some (smStage st f (k + j) t1) := by
  intro j
  induction j with
  | zero => intro k hk hkU; rfl
  | succ n ih =>
    intro k hk hkU
    have horig := smLookup_none_keys hnof
    have hstep : incrementStepModeCount (smStage st f k t1) f =
        some (smStage st f (k + 1) t1) := by
      have hb := incrementStepModeCount_bump (smStage st f k t1) f k cr hdbg hcr
        hfn (smLookup_cons_self st.stepModeCounters f k) (by omega)
      have hc : smBump (smStage st f k t1).stepModeCounters f =
          (f, k + 1) :: st.stepModeCounters := by
        show smBump ((f, k) :: st.stepModeCounters) f = _
        rw [smBump_cons _ _ _ horig, Nat.mod_eq_of_lt (by omega)]
      rw [hb, hc]
      rfl
    show (incrementStepModeCount (smStage st f k t1) f).bind
        (iterateOp (fun s => incrementStepModeCount s f) n) =
      some (smStage st f (k + (n + 1)) t1)
    rw [hstep]
    show iterateOp (fun s => incrementStepModeCount s f) n
        (smStage st f (k + 1) t1) =
      some (smStage st f (k + (n + 1)) t1)
    have h1 := ih (k + 1) (by omega) (by omega)
    have harith : k + 1 + n = k + (n + 1) := by omega
    rw [harith] at h1
    rw [h1]

/-- Decrements before the last only lower the stage counter. -/
theorem iterate_dec_stages (st : DebugState) (f : Nat) (cr : CodeRange)
    (t1 : Nat → Option Nat)
    (hdbg : st.metadata.debugEnabled = true)
    (hcr : getFuncCodeRange st.metadata f = some cr)
    (hfn : cr.isFunction = true)
    (hnof : smLookup st.stepModeCounters f = none) :
    ∀ j k, j < k → k < U32 →
      iterateOp (fun s => decrementStepModeCount s f) j (smStage st f k t1) =
        some (smStage st f (k - j) t1) := by
  intro j
  induction j with
  | zero => intro k hk hkU; rfl
  | succ n ih =>
    intro k hk hkU
    have horig := smLookup_none_keys hnof
    have hstep : decrementStepModeCount (smStage st f k t1) f =
        some (smStage st f (k - 1) t1) := by
      have hb := decrementStepModeCount_keep (smStage st f k t1) f k cr hdbg hcr
        hfn (smLookup_cons_self st.stepModeCounters f k) (by omega) hkU
      have hc : smSet (smStage st f k t1).stepModeCounters f (k - 1) =
          (f, k - 1) :: st.stepModeCounters := by
        show smSet ((f, k) :: st.stepModeCounters) f (k - 1) = _
        exact smSet_cons _ _ _ _ horig
      rw [hb, hc]
      rfl
    show (decrementStepModeCount (smStage st f k t1) f).bind
        (iterateOp (fun s => decrementStepModeCount s f) n) =
      some (smStage st f (k - (n + 1)) t1)
    rw [hstep]
    show iterateOp (fun s => decrementStepModeCount s f) n
        (smStage st f (k - 1) t1) =
      some (smStage st f (k - (n + 1)) t1)
    have h1 := ih (k - 1) (by omega) (by omega)
    have harith : k - 1 - n = k - (n + 1) := by omega
    rw [harith] at h1
    rw [h1]

/-- C2: step mode is a balanced reference count: from a state whose
in-range breakpoint traps agree with the breakpoint-site registry, N
successful increments followed by N decrements for the same function
restore the state exactly (sites with a registered breakpoint site end
enabled, all others end disabled), and only the first increment and the
last decrement patch code: every intermediate state carries the same
patched code `t1` (all in-range breakpoint sites enabled). -/
theorem step_mode_balanced (st : DebugState) (f N : Nat) (cr : CodeRange)
    (hdbg : st.metadata.debugEnabled = true)
    (hcr : getFuncCodeRange st.metadata f = some cr)
    (hfn : cr.isFunction = true)
    (hN : 1 ≤ N) (hNU : N < U32)
    (hnof : smLookup st.stepModeCounters f = none)
    (hnz : ∀ c ∈ st.metadata.callSites, inRangeBreakpoint cr c = true →
      c.returnAddressOffset ≠ 0)
    (hfj : ∀ c ∈ st.metadata.callSites, inRangeBreakpoint cr c = true →
      st.metadata.debugTrapFarJumpOffsets ≠ [])
    (hinit : ∀ c ∈ st.metadata.callSites, inRangeBreakpoint cr c = true →
      st.traps c.returnAddressOffset =
        patchedValue st.metadata.debugTrapFarJumpOffsets
          (fun o => st.breakpointSites.contains o) c.returnAddressOffset) :
    ∃ t1,
      (∀ k, 1 ≤ k → k ≤ N →
        iterateOp (fun s => incrementStepModeCount s f) k st =
          some (smStage st f k t1)) ∧
      (∀ j, j < N →
        (iterateOp (fun s => incrementStepModeCount s f) N st).bind
          (iterateOp (fun s => decrementStepModeCount s f) j) =
          some (smStage st f (N - j) t1)) ∧
      (iterateOp (fun s => incrementStepModeCount s f) N st).bind
        (iterateOp (fun s => decrementStepModeCount s f) N) = some st ∧
      (∀ c ∈ st.metadata.callSites, inRangeBreakpoint cr c = true →
        (st.traps c.returnAddressOffset).isSome =
          st.breakpointSites.contains c.returnAddressOffset) ∧
      (∀ o, t1 o =
        if st.metadata.callSites.any
            (fun c => inRangeBreakpoint cr c && decide (c.returnAddressOffset = o))
        then some (farJumpTarget st.metadata.debugTrapFarJumpOffsets o)
        else st.traps o) := by
  obtain ⟨t1, hinc1, ht1eq⟩ :=
    incrementStepModeCount_first st f cr hdbg hcr hfn hnof hnz hfj
  have hstage1 : iterateOp (fun s => incrementStepModeCount s f) 1 st =
      some (smStage st f 1 t1) := by
    show (incrementStepModeCount st f).bind
      (iterateOp (fun s => incrementStepModeCount s f) 0) = _
    rw [hinc1]
    rfl
  have hA : ∀ k, 1 ≤ k → k ≤ N →
      iterateOp (fun s => incrementStepModeCount s f) k st =
        some (smStage st f k t1) := by
    intro k hk1 hkN
    have hsplit : k = 1 + (k - 1) := by omega
    rw [hsplit, iterateOp_add, hstage1]
    show iterateOp (fun s => incrementStepModeCount s f) (k - 1)
        (smStage st f 1 t1) = _
    exact iterate_inc_stages st f cr t1 hdbg hcr hfn hnof (k - 1) 1 (by omega)
      (by omega)
  have hIncN := hA N hN (le_refl N)
  refine ⟨t1, hA, ?_, ?_, ?_, ht1eq⟩
  · intro j hj
    rw [hIncN]
    show iterateOp (fun s => decrementStepModeCount s f) j (smStage st f N t1) = _
    exact iterate_dec_stages st f cr t1 hdbg hcr hfn hnof j N hj hNU
  · rw [hIncN]
    show iterateOp (fun s => decrementStepModeCount s f) N (smStage st f N t1) =
      some st
    have hsplitN : N = (N - 1) + 1 := by omega
    rw [hsplitN, iterateOp_add]
    have hd := iterate_dec_stages st f cr t1 hdbg hcr hfn hnof (N - 1)
      ((N - 1) + 1) (by omega) (by omega)
    rw [hd]
    have harith2 : (N - 1) + 1 - (N - 1) = 1 := by omega
    rw [harith2]
    obtain ⟨t2, hdec, ht2eq⟩ := decrementStepModeCount_last (smStage st f 1 t1) f
      cr hdbg hcr hfn (smLookup_cons_self st.stepModeCounters f 1) hnz hfj
    simp only [smStage] at hdec ht2eq
    show (decrementStepModeCount (smStage st f 1 t1) f).bind
      (iterateOp (fun s => decrementStepModeCount s f) 0) = some st
    simp only [smStage]
    rw [hdec]
    have hrem : smRemove ((f, 1) :: st.stepModeCounters) f = st.stepModeCounters :=
      smRemove_cons _ _ _ (smLookup_none_keys hnof)
    have ht2 : t2 = st.traps := by
      funext o
      rw [ht2eq o]
      by_cases hro : st.metadata.callSites.any
          (fun c => inRangeBreakpoint cr c && decide (c.returnAddressOffset = o)) = true
      · rw [if_pos hro]
        obtain ⟨c, hc, hcp⟩ := List.any_eq_true.mp hro
        rw [Bool.and_eq_true] at hcp
        obtain ⟨hin, heq⟩ := hcp
        have ho : c.returnAddressOffset = o := of_decide_eq_true heq
        have hi := hinit c hc hin
        rw [ho] at hi
        exact hi.symm
      · rw [if_neg hro, ht1eq o, if_neg hro]
    rw [hrem, ht2]
    rfl
  · intro c hc hin
    rw [hinit c hc hin]
    unfold patchedValue
    by_cases hcon : st.breakpointSites.contains c.returnAddressOffset = true
    · rw [if_pos hcon, hcon]
      rfl
    · rw [if_neg hcon]
      rw [Bool.not_eq_true] at hcon
      rw [hcon]
      rfl

/-- C2 witness: two increments followed by two decrements on `stW2` restore
the state exactly. -/
theorem step_mode_balanced_witness :
    (iterateOp (fun s => incrementStepModeCount s 0) 2 stW2).bind
      (iterateOp (fun s => decrementStepModeCount s 0) 2) = some stW2 := by
  obtain ⟨t1, -, -, hrestore, -, -⟩ := step_mode_balanced stW2 0 2
    ⟨50, 200, 0, true⟩ rfl rfl rfl (by decide) (by decide) rfl (by decide)
    (by decide) (by decide)
  exact hrestore

/-- C1: the per-site trap state is governed by the breakpoint-site registry
except while step mode subsumes it: `toggleBreakpointTrap` refuses to patch
while the containing function's step-mode counter is present (nonzero), and
`decrementStepModeCount`, on the counter reaching zero, re-derives each
in-range breakpoint call site's machine-code trap as enabled iff
`breakpointSites_` contains its offset, leaving all other offsets
untouched. -/
theorem breakpoint_trap_vs_step_mode (st : DebugState) (offset f : Nat)
    (enabled : Bool) (cs : CallSite) (cr cr2 : CodeRange) :
    (st.metadata.debugEnabled = true →
      slowCallSiteSearchByOffset st.metadata offset = some cs →
      lookupRange st.metadata.codeRanges cs.returnAddressOffset = some cr →
      cr.isFunction = true →
      (smLookup st.stepModeCounters cr.funcIndex).isSome = true →
      toggleBreakpointTrap st offset enabled = some st) ∧
    (st.metadata.debugEnabled = true →
      getFuncCodeRange st.metadata f = some cr2 →
      cr2.isFunction = true →
      smLookup st.stepModeCounters f = some 1 →
      (∀ c ∈ st.metadata.callSites, inRangeBreakpoint cr2 c = true →
        c.returnAddressOffset ≠ 0) →
      (∀ c ∈ st.metadata.callSites, inRangeBreakpoint cr2 c = true →
        st.metadata.debugTrapFarJumpOffsets ≠ []) →
      ∃ st', decrementStepModeCount st f = some st' ∧
        (∀ c ∈ st.metadata.callSites, inRangeBreakpoint cr2 c = true →
          (st'.traps c.returnAddressOffset).isSome =
            st.breakpointSites.contains c.returnAddressOffset) ∧
        (∀ o, st.metadata.callSites.any
            (fun c => inRangeBreakpoint cr2 c && decide (c.returnAddressOffset = o)) = false →
          st'.traps o = st.traps o)) := by
  constructor
  · intro hdbg hcs hlr hfn hstep
    unfold toggleBreakpointTrap
    rw [if_neg (by rw [hdbg]; simp), hcs]
    dsimp only
    rw [hlr]
    dsimp only
    rw [if_neg (by rw [hfn]; simp), if_pos hstep]
  · intro hdbg hcr2 hfn2 hone hnz hfj
    obtain ⟨t, ht, hteq⟩ :=
      decrementStepModeCount_last st f cr2 hdbg hcr2 hfn2 hone hnz hfj
    refine ⟨_, ht, ?_, ?_⟩
    · intro c hc hin
      show (t c.returnAddressOffset).isSome = _
      rw [hteq c.returnAddressOffset]
      rw [if_pos (List.any_eq_true.mpr ⟨c, hc, by simp [hin]⟩)]
      unfold patchedValue
      by_cases hcon : st.breakpointSites.contains c.returnAddressOffset = true
      · rw [if_pos hcon, hcon]
        rfl
      · rw [if_neg hcon]
        rw [Bool.not_eq_true] at hcon
        rw [hcon]
        rfl
    · intro o hno
      show t o = st.traps o
      rw [hteq o, if_neg (by rw [hno]; simp)]

/-- C1 witness: on `stW` (function 0 in step mode, a breakpoint site at
return-address offset 100): the toggle is refused and the decrement
re-derives the site's trap from the registry. -/
theorem breakpoint_trap_vs_step_mode_witness :
    toggleBreakpointTrap stW 10 true = some stW ∧
    (decrementStepModeCount stW 0).map (fun s => (s.traps 100).isSome) =
      some (stW.breakpointSites.contains 100) := by
  have h := breakpoint_trap_vs_step_mode stW 10 0 true
    ⟨CallSiteKind.breakpoint, 100, 10⟩ ⟨50, 200, 0, true⟩ ⟨50, 200, 0, true⟩
  refine ⟨h.1 rfl rfl rfl rfl rfl, ?_⟩
  obtain ⟨st', hdec, hsites, -⟩ := h.2 rfl rfl rfl rfl (by decide) (by decide)
  rw [hdec]
  have h100 := hsites ⟨CallSiteKind.breakpoint, 100, 10⟩ (by decide) (by decide)
  show some ((st'.traps 100).isSome) = some (stW.breakpointSites.contains 100)
  rw [h100]

/-- C10: `adjustEnterAndLeaveFrameTrapsState` modifies machine code only
when the enter/leave-frame counter crosses between zero and nonzero: the
`0 → 1` increment enables every `EnterFrame`/`LeaveFrame` call site, the
`1 → 0` decrement disables them, and every other increment or decrement
changes only the counter, leaving all patched code unchanged. -/
theorem adjustEnterAndLeaveFrameTraps_crossing_only (st : DebugState) (e : Bool)
    (hdbg : st.metadata.debugEnabled = true)
    (hcb : st.enterAndLeaveFrameTrapsCounter + 1 < U32)
    (hnz : ∀ cs ∈ st.metadata.callSites, isEnterOrLeaveFrame cs = true →
      cs.returnAddressOffset ≠ 0)
    (hfj : ∀ cs ∈ st.metadata.callSites, isEnterOrLeaveFrame cs = true →
      st.metadata.debugTrapFarJumpOffsets ≠ []) :
    (e = true → 0 < st.enterAndLeaveFrameTrapsCounter →
      adjustEnterAndLeaveFrameTrapsState st e =
        some { st with enterAndLeaveFrameTrapsCounter :=
          st.enterAndLeaveFrameTrapsCounter + 1 }) ∧
    (e = false → 1 < st.enterAndLeaveFrameTrapsCounter →
      adjustEnterAndLeaveFrameTrapsState st e =
        some { st with enterAndLeaveFrameTrapsCounter :=
          st.enterAndLeaveFrameTrapsCounter - 1 }) ∧
    (e = true → st.enterAndLeaveFrameTrapsCounter = 0 →
      ∃ t, adjustEnterAndLeaveFrameTrapsState st e =
          some { st with enterAndLeaveFrameTrapsCounter := 1, traps := t } ∧
        ∀ o, t o =
          if st.metadata.callSites.any
              (fun cs => isEnterOrLeaveFrame cs && decide (cs.returnAddressOffset = o))
          then some (farJumpTarget st.metadata.debugTrapFarJumpOffsets o)
          else st.traps o) ∧
    (e = false → st.enterAndLeaveFrameTrapsCounter = 1 →
      ∃ t, adjustEnterAndLeaveFrameTrapsState st e =
          some { st with enterAndLeaveFrameTrapsCounter := 0, traps := t } ∧
        ∀ o, t o =
          if st.metadata.callSites.any
              (fun cs => isEnterOrLeaveFrame cs && decide (cs.returnAddressOffset = o))
          then none
          else st.traps o) := by
  have hlt : st.enterAndLeaveFrameTrapsCounter < U32 := by omega
  refine ⟨?_, ?_, ?_, ?_⟩
  · intro he hc
    subst he
    unfold adjustEnterAndLeaveFrameTrapsState
    rw [if_neg (by rw [hdbg]; simp), if_neg (by simp)]
    dsimp only
    rw [if_pos rfl, Nat.mod_eq_of_lt hcb, decide_eq_true hc,
      decide_eq_true (Nat.succ_pos _), if_pos rfl]
  · intro he hc
    subst he
    unfold adjustEnterAndLeaveFrameTrapsState
    rw [if_neg (by rw [hdbg]; simp), if_neg (by simp; omega)]
    dsimp only
    rw [if_neg Bool.false_ne_true, sub32_pred (by omega) hlt,
      decide_eq_true (by omega : 0 < st.enterAndLeaveFrameTrapsCounter),
      decide_eq_true (by omega : 0 < st.enterAndLeaveFrameTrapsCounter - 1),
      if_pos rfl]
  · intro he hc
    subst he
    unfold adjustEnterAndLeaveFrameTrapsState
    rw [if_neg (by rw [hdbg]; simp), if_neg (by simp)]
    dsimp only
    rw [if_pos rfl, hc]
    have h1 : (0 + 1) % U32 = 1 := by unfold U32; omega
    rw [h1]
    rw [if_neg (by simp)]
    obtain ⟨t, ht, hteq⟩ := toggleCallSitesTraps_eq
      st.metadata.debugTrapFarJumpOffsets isEnterOrLeaveFrame
      (fun _ => decide (0 < 1)) st.metadata.callSites st.traps
      (fun c hcm hpc => hnz c hcm hpc)
      (fun c hcm hpc _ => hfj c hcm hpc)
    refine ⟨t, ?_, ?_⟩
    · rw [ht]
      rfl
    · intro o
      rw [hteq o]
      unfold patchedValue
      by_cases hro : st.metadata.callSites.any
          (fun cs => isEnterOrLeaveFrame cs && decide (cs.returnAddressOffset = o)) = true
      · rw [if_pos hro, if_pos hro, if_pos (by simp)]
      · rw [if_neg (by rw [Bool.not_eq_true] at hro ⊢; exact hro),
          if_neg (by rw [Bool.not_eq_true] at hro ⊢; exact hro)]
  · intro he hc
    subst he
    unfold adjustEnterAndLeaveFrameTrapsState
    rw [if_neg (by rw [hdbg]; simp), if_neg (by simp [hc])]
    dsimp only
    rw [if_neg Bool.false_ne_true, hc]
    have h1 : sub32 1 1 = 0 := by unfold sub32 U32; omega
    rw [h1]
    rw [if_neg (by simp)]
    obtain ⟨t, ht, hteq⟩ := toggleCallSitesTraps_eq
      st.metadata.debugTrapFarJumpOffsets isEnterOrLeaveFrame
      (fun _ => decide ((0 : Nat) < 0)) st.metadata.callSites st.traps
      (fun c hcm hpc => hnz c hcm hpc)
      (fun c hcm hpc hdec => absurd hdec (by simp))
    refine ⟨t, ?_, ?_⟩
    · rw [ht]
      rfl
    · intro o
      rw [hteq o]
      unfold patchedValue
      by_cases hro : st.metadata.callSites.any
          (fun cs => isEnterOrLeaveFrame cs && decide (cs.returnAddressOffset = o)) = true
      · rw [if_pos hro, if_pos hro, if_neg (by simp)]
      · rw [if_neg (by rw [Bool.not_eq_true] at hro ⊢; exact hro),
          if_neg (by rw [Bool.not_eq_true] at hro ⊢; exact hro)]

/-- C10 witness: an increment with the counter already nonzero changes only
the counter. -/
theorem adjustEnterAndLeaveFrameTraps_crossing_only_witness :
    adjustEnterAndLeaveFrameTrapsState stFrame true =
      some { stFrame with enterAndLeaveFrameTrapsCounter := 2 } :=
  (adjustEnterAndLeaveFrameTraps_crossing_only stFrame true rfl (by decide)
    (by decide) (by decide)).1 rfl (by decide)

/-- C8 amended, witness at concrete inputs. -/
theorem contract_violation_handling_witness :
    decrementStepModeCount stEmptySites 0 = none ∧
    toggleDebugTrap [] (fun _ => none) 7 true = none ∧
    toggleBreakpointTrap stEmptySites 5 true = some stEmptySites :=
  contract_violation_handling stEmptySites 0 5 7 true (fun _ => none) rfl rfl rfl

/-- The run of `getLineOffsets` on an installed line-sorted map: the
binary search, rewind and collect loops return exactly the offsets of the
entries on the requested line, in the order they appear in `exprlocs`. -/
theorem getLineOffsets_run (render : Render) (st : DebugState)
    (m : GeneratedSourceMap) (L : Nat)
    (hdbg : st.metadata.debugEnabled = true)
    (hmap : st.maybeSourceMap = some m)
    (hline : List.Pairwise (fun x y : ExprLoc => x.lineno ≤ y.lineno)
      m.exprlocs) :
    getLineOffsets render st L =
      some (true,
        (m.exprlocs.filter (fun e => decide (e.lineno = L))).map
          (fun e => e.offset), st) := by
  obtain ⟨A, C, hE, hA, hC⟩ := lineSplit m.exprlocs L hline
  have hBev : ∀ e ∈ m.exprlocs.filter (fun e => decide (e.lineno = L)),
      e.lineno = L := by
    intro e he
    have := List.of_mem_filter he
    simpa using this
  have hens : ensureSourceMap render st = some (true, st) := by
    unfold ensureSourceMap
    rw [if_pos (by rw [hmap]; simp)]
  unfold getLineOffsets
  rw [if_neg (by simp [hdbg])]
  split
  · rename_i hnone
    rw [hens] at hnone
    exact Option.noConfusion hnone
  · rename_i ok st1 hsome
    rw [hens] at hsome
    injection hsome with hpair
    injection hpair with hok hst1
    subst hok
    subst hst1
    rw [if_neg (by decide)]
    split
    · rename_i hnone
      rw [hmap] at hnone
      exact Option.noConfusion hnone
    · rename_i m2' hsome2
      rw [hmap] at hsome2
      injection hsome2 with hm'
      subst hm'
      dsimp only
      by_cases hB0 : m.exprlocs.filter (fun e => decide (e.lineno = L)) = []
      · have hmiss := lineSearch_miss m.exprlocs A C L
          (by rw [hE, hB0]; simp) hA hC
        rw [hmiss, if_pos rfl, hB0]
        rfl
      · obtain ⟨mi, hbs, hm2a, hm2b⟩ := lineSearch_hit m.exprlocs A
          (m.exprlocs.filter (fun e => decide (e.lineno = L))) C L
          hE hA hBev hC hB0
        rw [hbs]
        dsimp only
        rw [if_neg (by decide),
          lineRewind m.exprlocs A
            (m.exprlocs.filter (fun e => decide (e.lineno = L))) C L mi
            hE hA hBev hm2a hm2b,
          lineCollect m.exprlocs A
            (m.exprlocs.filter (fun e => decide (e.lineno = L))) C L
            hE hBev hC]

/-- C5 counterexample: on a line-sorted map whose line-1 entries were
emitted with descending offsets, `getLineOffsets` appends them in
generation order, not ascending offset order - the collect loop copies
`exprlocs_[i].offset` without sorting. -/
theorem getLineOffsets_not_offset_sorted :
    getLineOffsets renderD stMapD 1 = some (true, [5, 4], stMapD) ∧
    ¬ List.Pairwise (fun a b : Nat => a ≤ b) [5, 4] := by
  constructor
  · have h := getLineOffsets_run renderD stMapD mapD 1 rfl rfl (by decide)
    have hval : (mapD.exprlocs.filter (fun e => decide (e.lineno = 1))).map
        (fun e => e.offset) = [5, 4] := by decide
    rw [hval] at h
    exact h
  · decide

/-- C5 (amended): after a successful source-map build, `getLineOffsets`
appends exactly the offsets of the expression locations recorded on the
requested line, in the order the renderer emitted them, and appends
nothing - still succeeding - when no entry has that line; the appended
offsets are ascending whenever that line's entries were emitted with
ascending offsets. Line-sortedness of the rendered expression locations is
a hypothesis: the renderer (`BinaryToText`) lives outside this translation
unit, and `createText`'s DEBUG assertion checks exactly this order. -/
theorem getLineOffsets_exact (render : Render) (st : DebugState)
    (m : GeneratedSourceMap) (L : Nat)
    (hdbg : st.metadata.debugEnabled = true)
    (hmap : st.maybeSourceMap = some m)
    (hline : List.Pairwise (fun x y : ExprLoc => x.lineno ≤ y.lineno)
      m.exprlocs) :
    getLineOffsets render st L =
      some (true,
        (m.exprlocs.filter (fun e => decide (e.lineno = L))).map
          (fun e => e.offset), st) ∧
    (List.Pairwise (fun x y : ExprLoc => x.offset ≤ y.offset)
        (m.exprlocs.filter (fun e => decide (e.lineno = L))) →
      List.Pairwise (fun a b : Nat => a ≤ b)
        ((m.exprlocs.filter (fun e => decide (e.lineno = L))).map
          (fun e => e.offset))) := by
  refine ⟨getLineOffsets_run render st m L hdbg hmap hline, ?_⟩
  intro hp
  rw [List.pairwise_map]
  exact hp

/-- C5 witness: on the sample line-sorted map, line 2 yields exactly the
offsets of its two entries, in order. -/
theorem getLineOffsets_exact_witness :
    stMapL.metadata.debugEnabled = true ∧
    getLineOffsets renderL stMapL 2 =
      some (true,
        (mapL.exprlocs.filter (fun e => decide (e.lineno = 2))).map
          (fun e => e.offset), stMapL) :=
  ⟨rfl, (getLineOffsets_exact renderL stMapL mapL 2 rfl rfl (by decide)).1⟩

end WasmDebug
